import Mathlib

/-!
Milton geometry utilities: a shallow embedding of `src/utils.cc`.

Conventions of the embedding.

* `i32` values are mathematical integers (`Int`).  Signed overflow is undefined
  behaviour in C++, and the rectangle functions are modelled without it: every
  property about them is about executions without overflow.
* `f32` values are rationals and every float operation is the exact operation
  followed by `f32`, the IEEE 754 rounding to nearest (ties to even) to a 24 bit
  significand; `f64` is the same with 53 bits.  The exponent range is unbounded:
  overflow to infinity, subnormal numbers and NaN are outside the model, so a
  division by a zero `mag_ab` and values beyond `2 ^ 128` or below `2 ^ -126`
  in magnitude are not represented.
* In the segment routines, whose claims carry no overflow proviso, `i32`
  arithmetic wraps (two's complement), as the compiled code does.
* `b32` results are `Bool`.
* Output parameters are passed in and returned (explicit state passing).
* An array argument `T a[]` is its index function `Nat → T`; the code reads it
  only at indices below the count passed with it.
* A failed `assert`, a division by zero and a loop that is still running when
  its fuel is spent are the three faults of `Fault`.
-/

namespace Milton

/-! ## Data model -/

/-- Modelled from the spec: the vector type is declared outside `utils.cc`; the
spec gives it as a pair `{x, y}` (the source reads the same fields as `w`, `h`
for a screen size). -/
structure V2 (α : Type) where
  x : α
  y : α
deriving DecidableEq

/-- Integer points, `v2i` in the source. -/
abbrev v2i := V2 Int

/-- Modelled from the spec: the type `Rect` is declared outside `utils.cc`; the
spec gives it as `{left, top, right, bottom}`, and the source builds it from
`{top_left, bot_right}`. -/
structure Rect where
  left : Int
  top : Int
  right : Int
  bottom : Int
deriving DecidableEq

/-- The ways in which a call can fail to return normally. -/
inductive Fault where
  | divByZero
  | assertion
  | outOfFuel
deriving DecidableEq

/-- Component-wise difference in exact arithmetic (used by the exact
parameter `raw_t`). -/
def V2.sub {α : Type} [Sub α] (a b : V2 α) : V2 α := ⟨a.x - b.x, a.y - b.y⟩

/-- The dot product `a.x * b.x + a.y * b.y` in exact arithmetic. -/
def DOT {α : Type} [Mul α] [Add α] (a b : V2 α) : α := a.x * b.x + a.y * b.y

/-- The rotation `(x, y) ↦ (y, -x)` in exact arithmetic. -/
def perpendicular (a : v2i) : v2i := ⟨a.y, -a.x⟩

/-! ## Machine arithmetic -/

/-- Rounding of a rational to the nearest integer, ties to the even one. -/
def round_half_even (s : ℚ) : Int :=
  if s - ⌊s⌋ < 1 / 2 then ⌊s⌋
  else if 1 / 2 < s - ⌊s⌋ then ⌊s⌋ + 1
  else if ⌊s⌋ % 2 = 0 then ⌊s⌋ else ⌊s⌋ + 1

/-- IEEE 754 rounding to nearest, ties to even, to a binary format with `t`
fraction bits. -/
def fround (t : Int) (x : ℚ) : ℚ :=
  (round_half_even (x / (2 : ℚ) ^ (Int.log 2 |x| - t)) : ℚ) * (2 : ℚ) ^ (Int.log 2 |x| - t)

/-- Rounding to binary32. -/
def f32 (x : ℚ) : ℚ := fround 23 x

/-- Rounding to binary64. -/
def f64 (x : ℚ) : ℚ := fround 52 x

/-- Binary32 subtraction: the exact difference, rounded. -/
def f32_sub (x y : ℚ) : ℚ := f32 (x - y)

/-- Binary32 addition: the exact sum, rounded. -/
def f32_add (x y : ℚ) : ℚ := f32 (x + y)

/-- Binary32 multiplication: the exact product, rounded. -/
def f32_mul (x y : ℚ) : ℚ := f32 (x * y)

/-- Binary32 division: the exact quotient, rounded. -/
def f32_div (x y : ℚ) : ℚ := f32 (x / y)

/-- Two's complement wrap of an integer to the range of `i32`. -/
def wrap32 (n : Int) : Int := (n + 2 ^ 31) % 2 ^ 32 - 2 ^ 31

/-- Subtraction of `i32` values. -/
def i32_sub (m n : Int) : Int := wrap32 (m - n)

/-- The conversion `(f32)n` of an `i32` value. -/
def i32_to_f32 (n : Int) : ℚ := f32 (n : ℚ)

/-- The cast `(i32)x` of a float: truncation toward zero. -/
def f32_to_i32 (x : ℚ) : Int := if 0 ≤ x then ⌊x⌋ else ⌈x⌉

/-- The conversion `v2i_to_v2f`: each coordinate is converted to binary32. -/
def v2i_to_v2f (p : v2i) : V2 ℚ := ⟨i32_to_f32 p.x, i32_to_f32 p.y⟩

/-- The conversion `v2f_to_v2i`: each coordinate is truncated toward zero. -/
def v2f_to_v2i (p : V2 ℚ) : v2i := ⟨f32_to_i32 p.x, f32_to_i32 p.y⟩

/-- Modelled from the spec: `operator-` on `v2i` is declared outside `utils.cc`;
it is the component-wise difference, here in `i32` arithmetic. -/
def v2i_sub (a b : v2i) : v2i := ⟨i32_sub a.x b.x, i32_sub a.y b.y⟩

/-- Modelled from the spec: the helper `perpendicular` is declared outside
`utils.cc`; the spec describes it as the direction "rotated 90°".  The rotation
used here is `(x, y) ↦ (y, -x)`, in `i32` arithmetic. -/
def v2i_perpendicular (a : v2i) : v2i := ⟨a.y, wrap32 (-a.x)⟩

/-- Modelled from the spec: the macro `DOT` is defined outside `utils.cc`; the
spec uses it as the dot product `a.x * b.x + a.y * b.y`, here in `i32`
arithmetic. -/
def v2i_dot (a b : v2i) : Int := wrap32 (wrap32 (a.x * b.x) + wrap32 (a.y * b.y))

/-! ## Orientation and triangle containment -/

/-- The signed area `orientation(a, b, c)`: four binary32 subtractions, two
multiplications and the final subtraction, each rounded. -/
def orientation (a b c : V2 ℚ) : ℚ :=
  f32_sub (f32_mul (f32_sub b.x a.x) (f32_sub c.y a.y))
          (f32_mul (f32_sub c.x a.x) (f32_sub b.y a.y))

/-- The predicate `is_inside_triangle(point, a, b, c)`. -/
def is_inside_triangle (point a b c : V2 ℚ) : Bool :=
  decide (orientation a b point ≤ 0) &&
  decide (orientation b c point ≤ 0) &&
  decide (orientation c a point ≤ 0)

/-! ## Closest point on a segment -/

/-- The function `intersect_line_segments`.  The dot products are `i32`
values, `t` and the reported point are binary32 values, and the two literals
`1.001` and `0.001` are binary64 values against which `t` is compared exactly.
The output parameter `out_intersection` is passed in and returned next to the
`hit` flag; it is written only on a hit. -/
def intersect_line_segments (a b u v : v2i) (out_intersection : V2 ℚ) : Bool × V2 ℚ :=
  let perp := v2i_perpendicular (v2i_sub v u)
  let det : Int := v2i_dot (v2i_sub b a) perp
  if det ≠ 0 then
    let t : ℚ := f32_div (i32_to_f32 (v2i_dot (v2i_sub u a) perp)) (i32_to_f32 det)
    let t := if t > 1 ∧ t < f64 (1001 / 1000) then 1 else t
    let t := if t < 0 ∧ t > -f64 (1 / 1000) then 1 else t
    if t ≥ 0 ∧ t ≤ 1 then
      (true, ⟨f32_add (i32_to_f32 a.x) (f32_mul t (i32_to_f32 (i32_sub b.x a.x))),
              f32_add (i32_to_f32 a.y) (f32_mul t (i32_to_f32 (i32_sub b.y a.y)))⟩)
    else
      (false, out_intersection)
  else
    (false, out_intersection)

/-! ## Rectangle algebra -/

/-- One tile of `rect_split`: the body of the inner loop at column start `w`
and row start `h`. -/
def rect_split_tile (src_rect : Rect) (width height : Int) (h w : Int) : Rect :=
  { left := w
    right := min src_rect.right (w + width)
    top := h
    bottom := min src_rect.bottom (h + height) }

/-- The inner loop of `rect_split`: `for (w = ...; w < src_rect.right; w += width)`.
Each iteration spends one unit of fuel. -/
def rect_split_cols (src_rect : Rect) (width height : Int) (h : Int) :
    Nat → Int → List Rect → Except Fault (List Rect)
  | 0, _, _ => .error .outOfFuel
  | fuel + 1, w, rects =>
    if w < src_rect.right then
      rect_split_cols src_rect width height h fuel (w + width)
        (rects ++ [rect_split_tile src_rect width height h w])
    else
      .ok rects

/-- The outer loop of `rect_split`: `for (h = ...; h < src_rect.bottom; h += height)`.
Each row runs the inner loop from `src_rect.left` with a fresh budget `fuel`. -/
def rect_split_rows (src_rect : Rect) (width height : Int) (fuel : Nat) :
    Nat → Int → List Rect → Except Fault (List Rect)
  | 0, _, _ => .error .outOfFuel
  | n + 1, h, rects =>
    if h < src_rect.bottom then
      match rect_split_cols src_rect width height h fuel src_rect.left rects with
      | .error e => .error e
      | .ok rects => rect_split_rows src_rect width height fuel n (h + height) rects
    else
      .ok rects

/-- The function `rect_split`.  Returns the count and the contents of
`out_rects` after the call.  Integer division is C division (`Int.tdiv`). -/
def rect_split (fuel : Nat) (out_rects : List Rect) (src_rect : Rect) (width height : Int) :
    Except Fault (Int × List Rect) :=
  if width = 0 ∨ height = 0 then .error .divByZero
  else
    let n_width := (src_rect.right - src_rect.left).tdiv width
    let n_height := (src_rect.bottom - src_rect.top).tdiv height
    if n_width = 0 ∨ n_height = 0 then .ok (0, out_rects)
    else
      let max_num_rects := (n_width + 1) * (n_height + 1)
      match rect_split_rows src_rect width height fuel fuel src_rect.top [] with
      | .error e => .error e
      | .ok rects =>
        if (rects.length : Int) ≤ max_num_rects then .ok ((rects.length : Int), rects)
        else .error .assertion

/-- The function `rect_union`. -/
def rect_union (a b : Rect) : Rect :=
  let left := min a.left b.left
  let right := max a.right b.right
  let left := if left > right then right else left
  let top := min a.top b.top
  let bottom := max a.bottom b.bottom
  let bottom := if bottom < top then top else bottom
  { left := left, top := top, right := right, bottom := bottom }

/-- The function `rect_intersect`. -/
def rect_intersect (a b : Rect) : Rect :=
  let left := max a.left b.left
  let right := min a.right b.right
  let left := if left ≥ right then right else left
  let top := max a.top b.top
  let bottom := min a.bottom b.bottom
  let bottom := if bottom ≤ top then top else bottom
  { left := left, top := top, right := right, bottom := bottom }

/-- The function `rect_stretch`. -/
def rect_stretch (rect : Rect) (width : Int) : Rect :=
  let stretched := rect
  let stretched :=
    if stretched.bottom - stretched.top < width then
      { stretched with top := stretched.top - width.tdiv 2
                       bottom := stretched.bottom + width.tdiv 2 }
    else stretched
  let stretched :=
    if stretched.right - stretched.left < width then
      { stretched with left := stretched.left - width.tdiv 2
                       right := stretched.right + width.tdiv 2 }
    else stretched
  stretched

/-- The function `rect_clip_to_screen`; `screen_size.x` is `w`, `screen_size.y` is `h`. -/
def rect_clip_to_screen (limits : Rect) (screen_size : v2i) : Rect :=
  let limits := if limits.left < 0 then { limits with left := 0 } else limits
  let limits := if limits.right > screen_size.x then { limits with right := screen_size.x } else limits
  let limits := if limits.top < 0 then { limits with top := 0 } else limits
  let limits := if limits.bottom > screen_size.y then { limits with bottom := screen_size.y } else limits
  limits

/-- The function `rect_enlarge`. -/
def rect_enlarge (src : Rect) (offset : Int) : Rect :=
  { left := src.left - offset, top := src.top - offset,
    right := src.right + offset, bottom := src.bottom + offset }

/-- The predicate `is_inside_rect`. -/
def is_inside_rect (bounds : Rect) (point : v2i) : Bool :=
  decide (point.x ≥ bounds.left) && decide (point.x < bounds.right) &&
  decide (point.y ≥ bounds.top) && decide (point.y < bounds.bottom)

/-- The predicate `rect_is_valid`. -/
def rect_is_valid (rect : Rect) : Bool :=
  decide (rect.left ≤ rect.right) && decide (rect.top ≤ rect.bottom)

/-- The function `rect_area`. -/
def rect_area (rect : Rect) : Int :=
  (rect.right - rect.left) * (rect.bottom - rect.top)

/-- The predicate `is_inside_rect_scalar`. -/
def is_inside_rect_scalar (bounds : Rect) (point_x point_y : Int) : Bool :=
  decide (point_x ≥ bounds.left) && decide (point_x < bounds.right) &&
  decide (point_y ≥ bounds.top) && decide (point_y < bounds.bottom)

/-- The predicate `is_rect_within_rect(a, b)`. -/
def is_rect_within_rect (a b : Rect) : Bool :=
  if a.left < b.left ∨ a.right > b.right ∨ a.top < b.top ∨ a.bottom > b.bottom then false
  else true

/-- The function `rect_from_xywh`. -/
def rect_from_xywh (x y w h : Int) : Rect :=
  { left := x, right := x + w, top := y, bottom := y + h }

/-- The loop body of `bounding_rect_for_points`: the four updates of
`top_left` and `bot_right` by one `point`. -/
def bounding_rect_step (st : v2i × v2i) (point : v2i) : v2i × v2i :=
  let top_left := st.1
  let bot_right := st.2
  let top_left := if point.x < top_left.x then { top_left with x := point.x } else top_left
  let bot_right := if point.x > bot_right.x then { bot_right with x := point.x } else bot_right
  let top_left := if point.y < top_left.y then { top_left with y := point.y } else top_left
  let bot_right := if point.y > bot_right.y then { bot_right with y := point.y } else bot_right
  (top_left, bot_right)

/-- The function `bounding_rect_for_points`: the assertion `num_points > 0`,
then `for (i = 1; i < num_points; ++i)` over `points[i]`, then
`Rect rect = { top_left, bot_right }`. -/
def bounding_rect_for_points (points : Nat → v2i) (num_points : Int) : Except Fault Rect :=
  if num_points > 0 then
    let st := (List.range' 1 (num_points.toNat - 1)).foldl
      (fun st i => bounding_rect_step st (points i)) (points 0, points 0)
    .ok { left := st.1.x, top := st.1.y, right := st.2.x, bottom := st.2.y }
  else .error .assertion

/-- The loop body of `bounding_rect_for_points_scalar` on the state
`(top_left_x, bot_right_x, top_left_y, bot_right_y)`. -/
def bounding_rect_step_scalar (st : Int × Int × Int × Int) (point_x point_y : Int) :
    Int × Int × Int × Int :=
  let top_left_x := st.1
  let bot_right_x := st.2.1
  let top_left_y := st.2.2.1
  let bot_right_y := st.2.2.2
  let top_left_x := if point_x < top_left_x then point_x else top_left_x
  let bot_right_x := if point_x > bot_right_x then point_x else bot_right_x
  let top_left_y := if point_y < top_left_y then point_y else top_left_y
  let bot_right_y := if point_y > bot_right_y then point_y else bot_right_y
  (top_left_x, bot_right_x, top_left_y, bot_right_y)

/-- The function `bounding_rect_for_points_scalar`. -/
def bounding_rect_for_points_scalar (points_x points_y : Nat → Int) (num_points : Int) :
    Except Fault Rect :=
  if num_points > 0 then
    let st := (List.range' 1 (num_points.toNat - 1)).foldl
      (fun st i => bounding_rect_step_scalar st (points_x i) (points_y i))
      (points_x 0, points_x 0, points_y 0, points_y 0)
    .ok { left := st.1, right := st.2.1, top := st.2.2.1, bottom := st.2.2.2 }
  else .error .assertion

/-! ## Specification-side definitions -/

/-- The exact parameter `t = ((u - a) · perp) / det` of `intersect_line_segments`,
before snapping. -/
def raw_t {K : Type} [LinearOrderedField K] (a b u v : v2i) : K :=
  ((DOT (u.sub a) (perpendicular (v.sub u)) : Int) : K) /
    ((DOT (b.sub a) (perpendicular (v.sub u)) : Int) : K)

/-- The cross product `(b - a) × (c - a)` in exact arithmetic, the value that
`orientation` approximates. -/
def orientation_exact (a b c : V2 ℚ) : ℚ :=
  (b.x - a.x) * (c.y - a.y) - (c.x - a.x) * (b.y - a.y)

/-- An integer point as a float vector with the same coordinates. -/
def exact_v2f (p : v2i) : V2 ℚ := ⟨(p.x : ℚ), (p.y : ℚ)⟩

/-- Integer points with both coordinates of magnitude at most `1024`. -/
def small_point (p : v2i) : Prop := |p.x| ≤ 1024 ∧ |p.y| ≤ 1024

/-- Invariant of the bounding loops after the points `0..m`: every one of them
lies between the running corners, and each corner coordinate is attained. -/
def BoundsUpTo (points : Nat → v2i) (m : Nat) (st : v2i × v2i) : Prop :=
  (∀ i : Nat, i ≤ m →
    st.1.x ≤ (points i).x ∧ (points i).x ≤ st.2.x ∧
    st.1.y ≤ (points i).y ∧ (points i).y ≤ st.2.y) ∧
  (∃ i : Nat, i ≤ m ∧ (points i).x = st.1.x) ∧
  (∃ i : Nat, i ≤ m ∧ (points i).x = st.2.x) ∧
  (∃ i : Nat, i ≤ m ∧ (points i).y = st.1.y) ∧
  (∃ i : Nat, i ≤ m ∧ (points i).y = st.2.y)

/-- A sample array: the three points `(3,1)`, `(-2,5)`, `(4,0)`. -/
def examplePoints : Nat → v2i := fun i => [⟨3, 1⟩, ⟨-2, 5⟩, ⟨4, 0⟩].getD i ⟨0, 0⟩

/-- Ceiling of the quotient of a non-negative by a positive integer. -/
def ceilDiv (n d : Int) : Int := (n + d - 1) / d

/-- The tile of the row-major grid at row `r`, column `c`, as the
specification writes it. -/
def gridTile (src : Rect) (tile_width tile_height : Int) (r c : Nat) : Rect :=
  { left := src.left + c * tile_width
    top := src.top + r * tile_height
    right := min src.right (src.left + (c + 1) * tile_width)
    bottom := min src.bottom (src.top + (r + 1) * tile_height) }

/-- The number of grid columns, `ceil(W / tile_width)`. -/
def gridCols (src : Rect) (tile_width : Int) : Nat :=
  (ceilDiv (src.right - src.left) tile_width).toNat

/-- The number of grid rows, `ceil(H / tile_height)`. -/
def gridRows (src : Rect) (tile_height : Int) : Nat :=
  (ceilDiv (src.bottom - src.top) tile_height).toNat

/-- The row-major grid of tiles: the top row left to right, then the next row. -/
def gridTiles (src : Rect) (tile_width tile_height : Int) : List Rect :=
  (List.range (gridRows src tile_height)).flatMap
    (fun r => (List.range (gridCols src tile_width)).map (gridTile src tile_width tile_height r))

end Milton

namespace Milton

/-! ## Rounding -/

theorem round_half_even_cases (s : ℚ) :
    round_half_even s = ⌊s⌋ ∧ s - ⌊s⌋ ≤ 1 / 2 ∨
    round_half_even s = ⌊s⌋ + 1 ∧ 1 / 2 ≤ s - ⌊s⌋ := by
  unfold round_half_even
  split_ifs with h1 h2 h3
  · left; exact ⟨rfl, h1.le⟩
  · right; exact ⟨rfl, h2.le⟩
  · left; exact ⟨rfl, le_of_not_lt h2⟩
  · right; exact ⟨rfl, le_of_not_lt h1⟩

theorem round_half_even_abs_sub_le (s : ℚ) : |(round_half_even s : ℚ) - s| ≤ 1 / 2 := by
  have hf := Int.floor_le s
  have hl := Int.lt_floor_add_one s
  rw [abs_le]
  rcases round_half_even_cases s with ⟨e, h⟩ | ⟨e, h⟩
  · rw [e]; constructor <;> linarith
  · rw [e]; push_cast; constructor <;> linarith

theorem round_half_even_intCast (n : Int) : round_half_even (n : ℚ) = n := by
  unfold round_half_even
  simp

theorem round_half_even_le_int (s : ℚ) (n : Int) (h : s ≤ n) : round_half_even s ≤ n := by
  rcases lt_or_eq_of_le h with hlt | heq
  · have hfl : ⌊s⌋ < n := by
      have := Int.floor_le s
      exact_mod_cast lt_of_le_of_lt this hlt
    rcases round_half_even_cases s with ⟨e, _⟩ | ⟨e, _⟩ <;> rw [e] <;> omega
  · rw [heq, round_half_even_intCast]

theorem int_le_round_half_even (s : ℚ) (n : Int) (h : (n : ℚ) ≤ s) : n ≤ round_half_even s := by
  have hfl : n ≤ ⌊s⌋ := Int.le_floor.mpr h
  rcases round_half_even_cases s with ⟨e, _⟩ | ⟨e, _⟩ <;> rw [e] <;> omega

theorem two_zpow_pos (z : Int) : (0 : ℚ) < (2 : ℚ) ^ z := zpow_pos (by norm_num) z

/-- The exponent of a non-zero rational: `2 ^ e ≤ |x| < 2 ^ (e + 1)`. -/
theorem log_bounds (x : ℚ) (hx : x ≠ 0) :
    (2 : ℚ) ^ Int.log 2 |x| ≤ |x| ∧ |x| < (2 : ℚ) ^ (Int.log 2 |x| + 1) := by
  have h := Int.zpow_log_le_self (b := 2) (r := |x|) (by norm_num) (abs_pos.mpr hx)
  have h2 := Int.lt_zpow_succ_log_self (b := 2) (by norm_num) |x|
  exact ⟨by exact_mod_cast h, by exact_mod_cast h2⟩

theorem log_eq_of_bounds (x : ℚ) (e : Int) (h1 : (2 : ℚ) ^ e ≤ x) (h2 : x < (2 : ℚ) ^ (e + 1)) :
    Int.log 2 x = e := by
  have hx : 0 < x := lt_of_lt_of_le (two_zpow_pos e) h1
  have a1 : e ≤ Int.log 2 x :=
    (Int.zpow_le_iff_le_log (b := 2) (by norm_num) hx).mp (by exact_mod_cast h1)
  have a2 : Int.log 2 x < e + 1 :=
    (Int.lt_zpow_iff_log_lt (b := 2) (by norm_num) hx).mp (by exact_mod_cast h2)
  omega

/-- Rounding zero gives zero. -/
theorem fround_zero (t : Int) : fround t 0 = 0 := by
  simp [fround, round_half_even_intCast, round_half_even]

/-- The relative error of one rounding is at most `2 ^ (-(t + 1))`. -/
theorem fround_abs_sub_le (t : Int) (x : ℚ) :
    |fround t x - x| ≤ |x| * (2 : ℚ) ^ (-(t + 1)) := by
  by_cases hx : x = 0
  · subst hx; simp [fround_zero]
  obtain ⟨hlo, _⟩ := log_bounds x hx
  have hu := two_zpow_pos (Int.log 2 |x| - t)
  have hr := round_half_even_abs_sub_le (x / (2 : ℚ) ^ (Int.log 2 |x| - t))
  have e1 : fround t x - x =
      ((round_half_even (x / (2 : ℚ) ^ (Int.log 2 |x| - t)) : ℚ)
        - x / (2 : ℚ) ^ (Int.log 2 |x| - t)) * (2 : ℚ) ^ (Int.log 2 |x| - t) := by
    unfold fround
    field_simp
  rw [e1, abs_mul, abs_of_pos hu]
  have e2 : (2 : ℚ) ^ (Int.log 2 |x| - t) = (2 : ℚ) ^ Int.log 2 |x| * (2 : ℚ) ^ (-(t + 1)) * 2 := by
    rw [← zpow_add₀ (by norm_num : (2 : ℚ) ≠ 0), ← zpow_add_one₀ (by norm_num : (2 : ℚ) ≠ 0)]
    congr 1
    ring
  have hp := two_zpow_pos (-(t + 1))
  calc |(round_half_even (x / (2 : ℚ) ^ (Int.log 2 |x| - t)) : ℚ)
        - x / (2 : ℚ) ^ (Int.log 2 |x| - t)| * (2 : ℚ) ^ (Int.log 2 |x| - t)
      ≤ 1 / 2 * (2 : ℚ) ^ (Int.log 2 |x| - t) := by
        exact mul_le_mul_of_nonneg_right hr hu.le
    _ = (2 : ℚ) ^ Int.log 2 |x| * (2 : ℚ) ^ (-(t + 1)) := by rw [e2]; ring
    _ ≤ |x| * (2 : ℚ) ^ (-(t + 1)) := mul_le_mul_of_nonneg_right hlo hp.le

/-- A value whose quotient by its unit in the last place is an integer is
representable: rounding leaves it unchanged. -/
theorem fround_of_int_quotient (t : Int) (x : ℚ) (k : Int)
    (h : x / (2 : ℚ) ^ (Int.log 2 |x| - t) = k) : fround t x = x := by
  have hu := two_zpow_pos (Int.log 2 |x| - t)
  unfold fround
  rw [h, round_half_even_intCast, ← h]
  field_simp

/-- Integers of magnitude at most `2 ^ 24` are binary32 values. -/
theorem f32_intCast (n : Int) (hn : |n| ≤ 2 ^ 24) : f32 (n : ℚ) = n := by
  by_cases h0 : n = 0
  · subst h0; simp [f32, fround_zero]
  have hx : (n : ℚ) ≠ 0 := by exact_mod_cast h0
  obtain ⟨hlo, hhi⟩ := log_bounds (n : ℚ) hx
  have habs : |(n : ℚ)| = ((|n| : Int) : ℚ) := by simp
  have h1 : (1 : ℚ) ≤ |(n : ℚ)| := by
    rw [habs]
    have : 1 ≤ |n| := Int.one_le_abs h0
    exact_mod_cast this
  have hle : |(n : ℚ)| ≤ (2 : ℚ) ^ (24 : Int) := by
    calc |(n : ℚ)| = ((|n| : Int) : ℚ) := habs
      _ ≤ ((2 ^ 24 : Int) : ℚ) := by exact_mod_cast hn
      _ = (2 : ℚ) ^ (24 : Int) := by norm_num
  -- 0 ≤ e ≤ 24
  have he0 : 0 ≤ Int.log 2 |(n : ℚ)| := by
    have := (Int.zpow_le_iff_le_log (b := 2) (x := 0) (r := |(n : ℚ)|) (by norm_num)
      (abs_pos.mpr hx)).mp (by simpa using h1)
    exact this
  have he24 : Int.log 2 |(n : ℚ)| ≤ 24 := by
    by_contra hc
    push_neg at hc
    have h25 : (2 : ℚ) ^ (25 : Int) ≤ (2 : ℚ) ^ Int.log 2 |(n : ℚ)| :=
      zpow_le_zpow_right₀ (by norm_num) (by omega)
    have : (2 : ℚ) ^ (25 : Int) ≤ (2 : ℚ) ^ (24 : Int) := le_trans (le_trans h25 hlo) hle
    norm_num at this
  unfold f32
  rcases lt_or_eq_of_le he24 with hlt | heq
  · -- e ≤ 23: the unit is 2 ^ (e - 23) = 1 / 2 ^ (23 - e)
    obtain ⟨j, hj⟩ : ∃ j : Nat, (j : Int) = 23 - Int.log 2 |(n : ℚ)| :=
      ⟨(23 - Int.log 2 |(n : ℚ)|).toNat, Int.toNat_of_nonneg (by omega)⟩
    apply fround_of_int_quotient 23 (n : ℚ) (n * 2 ^ j)
    have e : Int.log 2 |(n : ℚ)| - 23 = -(j : Int) := by omega
    rw [e, zpow_neg, zpow_natCast]
    push_cast
    field_simp
  · -- e = 24: |n| = 2 ^ 24 and the unit is 2
    have habs2 : |n| = 2 ^ 24 := by
      apply le_antisymm hn
      have : ((2 ^ 24 : Int) : ℚ) ≤ ((|n| : Int) : ℚ) := by
        rw [heq] at hlo
        calc ((2 ^ 24 : Int) : ℚ) = (2 : ℚ) ^ (24 : Int) := by norm_num
          _ ≤ |(n : ℚ)| := hlo
          _ = ((|n| : Int) : ℚ) := habs
      exact_mod_cast this
    have hn2 : n = 2 ^ 24 ∨ n = -(2 ^ 24) := by
      rcases abs_cases n with ⟨e1, _⟩ | ⟨e1, _⟩ <;> omega
    rcases hn2 with e1 | e1
    · apply fround_of_int_quotient 23 (n : ℚ) (2 ^ 23)
      rw [heq, e1]
      norm_num
    · apply fround_of_int_quotient 23 (n : ℚ) (-(2 ^ 23))
      rw [heq, e1]
      norm_num

/-- Rounding keeps a value of the unit interval in the unit interval. -/
theorem fround_unit_interval (t : Int) (ht : 0 ≤ t) (x : ℚ) (h0 : 0 ≤ x) (h1 : x ≤ 1) :
    0 ≤ fround t x ∧ fround t x ≤ 1 := by
  have hu := two_zpow_pos (Int.log 2 |x| - t)
  constructor
  · unfold fround
    apply mul_nonneg _ hu.le
    have : (0 : Int) ≤ round_half_even (x / (2 : ℚ) ^ (Int.log 2 |x| - t)) :=
      int_le_round_half_even _ 0 (by simpa using div_nonneg h0 hu.le)
    exact_mod_cast this
  · rcases lt_or_eq_of_le h1 with hlt | heq
    · by_cases hx : x = 0
      · subst hx; simp [fround_zero]
      have hpos : 0 < x := lt_of_le_of_ne h0 (Ne.symm hx)
      obtain ⟨hlo, hhi⟩ := log_bounds x hx
      rw [abs_of_pos hpos] at hlo hhi hu
      have hneg : Int.log 2 x < 0 :=
        (Int.lt_zpow_iff_log_lt (b := 2) (x := 0) (r := x) (by norm_num) hpos).mp
          (by simpa using hlt)
      obtain ⟨j, hj⟩ : ∃ j : Nat, (j : Int) = t + 1 :=
        ⟨(t + 1).toNat, Int.toNat_of_nonneg (by omega)⟩
      have hs : x / (2 : ℚ) ^ (Int.log 2 x - t) ≤ ((2 ^ j : Int) : ℚ) := by
        rw [div_le_iff₀ hu]
        push_cast
        rw [← zpow_natCast, ← zpow_add₀ (by norm_num : (2 : ℚ) ≠ 0), hj]
        have : (j : Int) - 0 = t + 1 := by omega
        rw [show t + 1 + (Int.log 2 x - t) = Int.log 2 x + 1 by ring]
        exact hhi.le
      have hr := round_half_even_le_int _ _ hs
      unfold fround
      rw [abs_of_pos hpos]
      have hr2 : (round_half_even (x / (2 : ℚ) ^ (Int.log 2 x - t)) : ℚ) ≤ ((2 ^ j : Int) : ℚ) := by
        exact_mod_cast hr
      calc (round_half_even (x / (2 : ℚ) ^ (Int.log 2 x - t)) : ℚ) * (2 : ℚ) ^ (Int.log 2 x - t)
          ≤ ((2 ^ j : Int) : ℚ) * (2 : ℚ) ^ (Int.log 2 x - t) :=
            mul_le_mul_of_nonneg_right hr2 hu.le
        _ = (2 : ℚ) ^ (Int.log 2 x + 1) := by
            push_cast
            rw [← zpow_natCast, ← zpow_add₀ (by norm_num : (2 : ℚ) ≠ 0), hj]
            congr 1
            ring
        _ ≤ (2 : ℚ) ^ (0 : Int) := zpow_le_zpow_right₀ (by norm_num) (by omega)
        _ = 1 := by norm_num
    · subst heq
      have : fround t 1 = 1 := by
        apply fround_of_int_quotient t 1 (2 ^ t.toNat)
        have hl : Int.log 2 |(1 : ℚ)| = 0 := by
          rw [abs_one]
          exact log_eq_of_bounds 1 0 (by norm_num) (by norm_num)
        rw [hl]
        push_cast
        rw [zero_sub, zpow_neg, ← zpow_natCast, Int.toNat_of_nonneg ht]
        field_simp
      rw [this]

/-- Evaluation of one rounding from its certificate: the exponent range of
`x` and the rounded quotient. -/
theorem fround_eval (t : Int) (x : ℚ) (e m : Int)
    (h1 : (2 : ℚ) ^ e ≤ |x|) (h2 : |x| < (2 : ℚ) ^ (e + 1))
    (h3 : round_half_even (x / (2 : ℚ) ^ (e - t)) = m) :
    fround t x = (m : ℚ) * (2 : ℚ) ^ (e - t) := by
  have hl := log_eq_of_bounds |x| e h1 h2
  unfold fround
  rw [hl, h3]

/-- Rounding down: `f ≤ s < f + 1/2`. -/
theorem round_half_even_down (s : ℚ) (f : Int) (h1 : (f : ℚ) ≤ s) (h2 : s < f + 1 / 2) :
    round_half_even s = f := by
  have hf : ⌊s⌋ = f := Int.floor_eq_iff.mpr ⟨h1, by linarith⟩
  unfold round_half_even
  rw [hf, if_pos (by linarith)]

/-- Rounding up: `f + 1/2 < s < f + 1`. -/
theorem round_half_even_up (s : ℚ) (f : Int) (h1 : (f : ℚ) + 1 / 2 < s) (h2 : s < f + 1) :
    round_half_even s = f + 1 := by
  have hf : ⌊s⌋ = f := Int.floor_eq_iff.mpr ⟨by linarith, h2⟩
  unfold round_half_even
  rw [hf, if_neg (by linarith), if_pos (by linarith)]

/-- A tie goes to the even neighbour. -/
theorem round_half_even_tie (s : ℚ) (f : Int) (h : s = f + 1 / 2) :
    round_half_even s = if f % 2 = 0 then f else f + 1 := by
  have hf : ⌊s⌋ = f := Int.floor_eq_iff.mpr ⟨by linarith, by linarith⟩
  unfold round_half_even
  rw [hf, if_neg (by linarith), if_neg (by linarith)]

/-- The binary32 difference of two integers of magnitude at most `2 ^ 23` is exact. -/
theorem f32_sub_int (m n : Int) (hm : |m| ≤ 2 ^ 23) (hn : |n| ≤ 2 ^ 23) :
    f32_sub (m : ℚ) (n : ℚ) = ((m - n : Int) : ℚ) := by
  unfold f32_sub
  rw [← Int.cast_sub]
  apply f32_intCast
  have := abs_sub m n
  omega

/-- The binary32 product of two integers of magnitude at most `2 ^ 12` is exact. -/
theorem f32_mul_int (m n : Int) (hm : |m| ≤ 2 ^ 12) (hn : |n| ≤ 2 ^ 12) :
    f32_mul (m : ℚ) (n : ℚ) = ((m * n : Int) : ℚ) := by
  unfold f32_mul
  rw [← Int.cast_mul]
  apply f32_intCast
  rw [abs_mul]
  calc |m| * |n| ≤ 2 ^ 12 * 2 ^ 12 := mul_le_mul hm hn (abs_nonneg n) (by norm_num)
    _ = 2 ^ 24 := by norm_num

/-- A product of bounded integers is bounded by the product of the bounds. -/
theorem abs_mul_le_of_le (m n B C : Int) (hm : |m| ≤ B) (hn : |n| ≤ C) : |m * n| ≤ B * C := by
  rw [abs_mul]
  exact mul_le_mul hm hn (abs_nonneg n) (le_trans (abs_nonneg m) hm)

/-- Integers within the `i32` range are not changed by the wrap. -/
theorem wrap32_of_small (n : Int) (h : |n| < 2 ^ 31) : wrap32 n = n := by
  unfold wrap32
  have := abs_lt.mp h
  omega

/-- The absolute error of one binary32 rounding of a value bounded by `B`. -/
theorem f32_error (x B : ℚ) (h : |x| ≤ B) : |f32 x - x| ≤ B / 2 ^ 24 := by
  have h1 := fround_abs_sub_le 23 x
  have e : (2 : ℚ) ^ (-((23 : Int) + 1)) = 1 / 2 ^ 24 := by norm_num
  rw [e] at h1
  unfold f32
  calc |fround 23 x - x| ≤ |x| * (1 / 2 ^ 24) := h1
    _ ≤ B * (1 / 2 ^ 24) := mul_le_mul_of_nonneg_right h (by norm_num)
    _ = B / 2 ^ 24 := by ring

/-- Error of `A + z` computed as `f32 (A + f32 z)`, against a target `A + w`
with `z` within one rounding of `w`. -/
theorem f32_add_rounded_error (A : Int) (z w : ℚ) (hA : |A| ≤ 1024) (hw : |w| ≤ 2048)
    (hz : |z - w| ≤ 2048 / 2 ^ 24) :
    |f32 ((A : ℚ) + f32 z) - ((A : ℚ) + w)| ≤ 1 / 1000 := by
  have hAq : |(A : ℚ)| ≤ 1024 := by
    have : ((|A| : Int) : ℚ) ≤ ((1024 : Int) : ℚ) := by exact_mod_cast hA
    simpa using this
  have hz1 : |z| ≤ 2049 := by
    have := abs_sub_abs_le_abs_sub z w
    have : (2048 : ℚ) / 2 ^ 24 ≤ 1 := by norm_num
    linarith
  have e1 := f32_error z 2049 hz1
  have hfz : |f32 z| ≤ 2050 := by
    have := abs_sub_abs_le_abs_sub (f32 z) z
    have : (2049 : ℚ) / 2 ^ 24 ≤ 1 := by norm_num
    linarith
  have hsum : |(A : ℚ) + f32 z| ≤ 3074 := by
    have := abs_add (A : ℚ) (f32 z)
    linarith
  have e2 := f32_error ((A : ℚ) + f32 z) 3074 hsum
  have key : f32 ((A : ℚ) + f32 z) - ((A : ℚ) + w) =
      (f32 ((A : ℚ) + f32 z) - ((A : ℚ) + f32 z)) + (f32 z - z) + (z - w) := by ring
  rw [key]
  have t1 := abs_add ((f32 ((A : ℚ) + f32 z) - ((A : ℚ) + f32 z)) + (f32 z - z)) (z - w)
  have t2 := abs_add (f32 ((A : ℚ) + f32 z) - ((A : ℚ) + f32 z)) (f32 z - z)
  have : (3074 : ℚ) / 2 ^ 24 + 2049 / 2 ^ 24 + 2048 / 2 ^ 24 ≤ 1 / 1000 := by norm_num
  linarith

/-- A bound on an integer is a bound on its cast. -/
theorem small_abs_cast (n : Int) (B : Int) (h : |n| ≤ B) : |(n : ℚ)| ≤ (B : ℚ) := by
  have : ((|n| : Int) : ℚ) ≤ ((B : Int) : ℚ) := by exact_mod_cast h
  simpa using this

/-- On small points the `i32` vector difference does not wrap. -/
theorem v2i_sub_small (a b : v2i) (ha : small_point a) (hb : small_point b) :
    v2i_sub a b = a.sub b ∧ |(a.sub b).x| ≤ 2048 ∧ |(a.sub b).y| ≤ 2048 := by
  obtain ⟨ha1, ha2⟩ := ha
  obtain ⟨hb1, hb2⟩ := hb
  have d1 : |a.x - b.x| ≤ 2048 := by have := abs_sub a.x b.x; omega
  have d2 : |a.y - b.y| ≤ 2048 := by have := abs_sub a.y b.y; omega
  refine ⟨?_, d1, d2⟩
  simp only [v2i_sub, i32_sub, V2.sub]
  rw [wrap32_of_small _ (by omega), wrap32_of_small _ (by omega)]

/-- On a vector with a small first coordinate the `i32` rotation does not wrap. -/
theorem v2i_perpendicular_small (a : v2i) (hx : |a.x| ≤ 2048) :
    v2i_perpendicular a = perpendicular a := by
  simp only [v2i_perpendicular, perpendicular]
  rw [wrap32_of_small _ (by rw [abs_neg]; omega)]

/-- On vectors with coordinates of magnitude at most `2048` the `i32` dot
product does not wrap and is at most `2 ^ 23` in magnitude. -/
theorem v2i_dot_small (a b : v2i) (ha : |a.x| ≤ 2048 ∧ |a.y| ≤ 2048)
    (hb : |b.x| ≤ 2048 ∧ |b.y| ≤ 2048) :
    v2i_dot a b = DOT a b ∧ |DOT a b| ≤ 2 ^ 23 := by
  have p1 := abs_mul_le_of_le _ _ _ _ ha.1 hb.1
  have p2 := abs_mul_le_of_le _ _ _ _ ha.2 hb.2
  have p3 := abs_add (a.x * b.x) (a.y * b.y)
  simp only [v2i_dot, DOT]
  refine ⟨?_, by omega⟩
  rw [wrap32_of_small (a.x * b.x) (by omega), wrap32_of_small (a.y * b.y) (by omega),
    wrap32_of_small _ (by omega)]

/-- C3: the result of `rect_union a b` contains `a` and `b` on all four edges,
for arbitrary (also inverted) inputs; equivalently `is_rect_within_rect a r`
and `is_rect_within_rect b r` both hold. -/
theorem rect_union_contains_both (a b : Rect) :
    ((rect_union a b).left ≤ a.left ∧ (rect_union a b).left ≤ b.left ∧
     (rect_union a b).right ≥ a.right ∧ (rect_union a b).right ≥ b.right ∧
     (rect_union a b).top ≤ a.top ∧ (rect_union a b).top ≤ b.top ∧
     (rect_union a b).bottom ≥ a.bottom ∧ (rect_union a b).bottom ≥ b.bottom) ∧
    is_rect_within_rect a (rect_union a b) = true ∧
    is_rect_within_rect b (rect_union a b) = true := by
  have key : (rect_union a b).left ≤ a.left ∧ (rect_union a b).left ≤ b.left ∧
     (rect_union a b).right ≥ a.right ∧ (rect_union a b).right ≥ b.right ∧
     (rect_union a b).top ≤ a.top ∧ (rect_union a b).top ≤ b.top ∧
     (rect_union a b).bottom ≥ a.bottom ∧ (rect_union a b).bottom ≥ b.bottom := by
    simp only [rect_union]
    split_ifs <;> refine ⟨?_, ?_, ?_, ?_, ?_, ?_, ?_, ?_⟩ <;> omega
  refine ⟨key, ?_, ?_⟩
  · simp only [is_rect_within_rect]
    rw [if_neg]
    omega
  · simp only [is_rect_within_rect]
    rw [if_neg]
    omega

/-- C4, as stated, fails: for `a` spanning `0..10` and `b` spanning `20..30` on
the x axis the left edge of `rect_intersect a b` is `10`, left of `b.left = 20`,
so the result is not within `b`. -/
theorem rect_intersect_not_within_disjoint :
    ¬ ((rect_intersect ⟨0, 0, 10, 10⟩ ⟨20, 0, 30, 10⟩).left ≥ (⟨20, 0, 30, 10⟩ : Rect).left) ∧
    rect_intersect ⟨0, 0, 10, 10⟩ ⟨20, 0, 30, 10⟩ = ⟨10, 0, 10, 10⟩ ∧
    is_rect_within_rect (rect_intersect ⟨0, 0, 10, 10⟩ ⟨20, 0, 30, 10⟩) ⟨20, 0, 30, 10⟩ = false := by
  decide

/-- C4 (amended): the right and top edges of `rect_intersect a b` always lie
within `a` and `b`; the left edge does when the x extents meet
(`max lefts ≤ min rights`), the bottom edge does when the y extents meet
(`max tops ≤ min bottoms`); when both meet, `is_rect_within_rect r a` and
`is_rect_within_rect r b` hold. -/
theorem rect_intersect_within_when_meeting (a b : Rect) :
    ((rect_intersect a b).right ≤ a.right ∧ (rect_intersect a b).right ≤ b.right ∧
     (rect_intersect a b).top ≥ a.top ∧ (rect_intersect a b).top ≥ b.top) ∧
    (max a.left b.left ≤ min a.right b.right →
      (rect_intersect a b).left ≥ a.left ∧ (rect_intersect a b).left ≥ b.left) ∧
    (max a.top b.top ≤ min a.bottom b.bottom →
      (rect_intersect a b).bottom ≤ a.bottom ∧ (rect_intersect a b).bottom ≤ b.bottom) ∧
    (max a.left b.left ≤ min a.right b.right → max a.top b.top ≤ min a.bottom b.bottom →
      is_rect_within_rect (rect_intersect a b) a = true ∧
      is_rect_within_rect (rect_intersect a b) b = true) := by
  refine ⟨?_, ?_, ?_, ?_⟩
  · simp only [rect_intersect]
    refine ⟨?_, ?_, ?_, ?_⟩ <;> omega
  · intro hx
    simp only [rect_intersect]
    split_ifs <;> constructor <;> omega
  · intro hy
    simp only [rect_intersect]
    split_ifs <;> constructor <;> omega
  · intro hx hy
    simp only [is_rect_within_rect, rect_intersect]
    constructor <;> rw [if_neg] <;> split_ifs <;> omega

/-- Witness for C4 (amended): two overlapping rectangles. -/
theorem rect_intersect_within_when_meeting_witness :
    (max (0 : Int) 5 ≤ min 10 15 ∧ max (0 : Int) 5 ≤ min 10 15) ∧
    is_rect_within_rect (rect_intersect ⟨0, 0, 10, 10⟩ ⟨5, 5, 15, 15⟩) ⟨0, 0, 10, 10⟩ = true ∧
    is_rect_within_rect (rect_intersect ⟨0, 0, 10, 10⟩ ⟨5, 5, 15, 15⟩) ⟨5, 5, 15, 15⟩ = true :=
  ⟨by decide,
   (rect_intersect_within_when_meeting ⟨0, 0, 10, 10⟩ ⟨5, 5, 15, 15⟩).2.2.2
     (by decide) (by decide)⟩

/-- C5: `rect_union a b` and `rect_intersect a b` are valid rectangles
(`left ≤ right` and `top ≤ bottom`) for arbitrary inputs. -/
theorem rect_union_intersect_valid (a b : Rect) :
    rect_is_valid (rect_union a b) = true ∧ rect_is_valid (rect_intersect a b) = true ∧
    (rect_union a b).left ≤ (rect_union a b).right ∧
    (rect_union a b).top ≤ (rect_union a b).bottom ∧
    (rect_intersect a b).left ≤ (rect_intersect a b).right ∧
    (rect_intersect a b).top ≤ (rect_intersect a b).bottom := by
  have hu : (rect_union a b).left ≤ (rect_union a b).right ∧
      (rect_union a b).top ≤ (rect_union a b).bottom := by
    simp only [rect_union]
    split_ifs <;> constructor <;> omega
  have hi : (rect_intersect a b).left ≤ (rect_intersect a b).right ∧
      (rect_intersect a b).top ≤ (rect_intersect a b).bottom := by
    simp only [rect_intersect]
    split_ifs <;> constructor <;> omega
  refine ⟨?_, ?_, hu.1, hu.2, hi.1, hi.2⟩
  · simp [rect_is_valid, hu.1, hu.2]
  · simp [rect_is_valid, hi.1, hi.2]

/-! ## Point containment -/

/-- C6: half-open boundary law.  A point is inside `rect_from_xywh x y w h`
iff `x ≤ p.x < x + w` and `y ≤ p.y < y + h`; `is_inside_rect_scalar` agrees
on `(p.x, p.y)`; for the rectangle `(0, 0, 10, 10)` every point of
`0..9 × 0..9` is inside and `(10, 10)`, `(-1, 0)` are not. -/
theorem is_inside_rect_half_open (x y w h : Int) (p : v2i) :
    (is_inside_rect (rect_from_xywh x y w h) p = true ↔
      (x ≤ p.x ∧ p.x < x + w) ∧ (y ≤ p.y ∧ p.y < y + h)) ∧
    is_inside_rect_scalar (rect_from_xywh x y w h) p.x p.y =
      is_inside_rect (rect_from_xywh x y w h) p ∧
    (List.range 10).all (fun i => (List.range 10).all (fun j =>
      is_inside_rect (rect_from_xywh 0 0 10 10) ⟨(i : Int), (j : Int)⟩)) = true ∧
    is_inside_rect (rect_from_xywh 0 0 10 10) ⟨10, 10⟩ = false ∧
    is_inside_rect (rect_from_xywh 0 0 10 10) ⟨-1, 0⟩ = false := by
  refine ⟨?_, rfl, by decide, by decide, by decide⟩
  simp only [is_inside_rect, rect_from_xywh, Bool.and_eq_true, decide_eq_true_eq, ge_iff_le]
  tauto

/-! ## Triangles -/

/-- On points with integer coordinates of magnitude at most `1024` every
operation of `orientation` is exact: the differences are at most `2048`, the
products at most `2 ^ 22` and their difference at most `2 ^ 23`. -/
theorem orientation_small (a b c : v2i) (ha : small_point a) (hb : small_point b)
    (hc : small_point c) :
    orientation (exact_v2f a) (exact_v2f b) (exact_v2f c) =
      orientation_exact (exact_v2f a) (exact_v2f b) (exact_v2f c) := by
  obtain ⟨ha1, ha2⟩ := ha
  obtain ⟨hb1, hb2⟩ := hb
  obtain ⟨hc1, hc2⟩ := hc
  have d1 : |b.x - a.x| ≤ 2048 := by have := abs_sub b.x a.x; omega
  have d2 : |c.y - a.y| ≤ 2048 := by have := abs_sub c.y a.y; omega
  have d3 : |c.x - a.x| ≤ 2048 := by have := abs_sub c.x a.x; omega
  have d4 : |b.y - a.y| ≤ 2048 := by have := abs_sub b.y a.y; omega
  have p1 := abs_mul_le_of_le _ _ _ _ d1 d2
  have p2 := abs_mul_le_of_le _ _ _ _ d3 d4
  simp only [orientation, exact_v2f, orientation_exact]
  rw [f32_sub_int b.x a.x (by omega) (by omega), f32_sub_int c.y a.y (by omega) (by omega),
    f32_sub_int c.x a.x (by omega) (by omega), f32_sub_int b.y a.y (by omega) (by omega),
    f32_mul_int _ _ (by omega) (by omega), f32_mul_int _ _ (by omega) (by omega),
    f32_sub_int _ _ (by omega) (by omega)]
  push_cast
  ring

/-- The three exact cross products of `p` against the edges add up to the one
of the triangle. -/
theorem orientation_exact_sum (p a b c : V2 ℚ) :
    orientation_exact a b p + orientation_exact b c p + orientation_exact c a p
      = orientation_exact a b c := by
  simp only [orientation_exact]; ring

/-- C10, as stated, fails on the binary32 code: the points `(0,0)`,
`(16777215,16777218)`, `(1,1)` are binary32 values, the triangle is clockwise
(`orientation a b c = -3`, also exactly), and `is_inside_triangle` is false at
its own vertex `a`: the edge test `orientation b c a` rounds to `16777216 > 0`. -/
theorem is_inside_triangle_vertex_outside :
    (f32 16777215 = 16777215 ∧ f32 16777218 = 16777218) ∧
    orientation ⟨0, 0⟩ ⟨16777215, 16777218⟩ ⟨1, 1⟩ = -3 ∧
    orientation_exact ⟨0, 0⟩ ⟨16777215, 16777218⟩ ⟨1, 1⟩ = -3 ∧
    orientation ⟨16777215, 16777218⟩ ⟨1, 1⟩ ⟨0, 0⟩ = 16777216 ∧
    is_inside_triangle ⟨0, 0⟩ ⟨0, 0⟩ ⟨16777215, 16777218⟩ ⟨1, 1⟩ = false := by
  have e1 : f32 ((16777215 : ℚ)) = 16777215 := by
    simpa using f32_intCast (16777215) (by norm_num)
  have e2 : f32 ((1 : ℚ)) = 1 := by
    simpa using f32_intCast (1) (by norm_num)
  have e3 : f32 ((16777218 : ℚ)) = 16777218 := by
    have h := fround_eval 23 ((16777218 : ℚ)) (24) (8388609) (by norm_num [abs_of_pos, abs_of_neg])
      (by norm_num [abs_of_pos, abs_of_neg]) (round_half_even_down _ (8388609) (by norm_num) (by norm_num))
    unfold f32
    rw [h]
    norm_num
  have e4 : f32 (-(3 : ℚ)) = -3 := by
    simpa using f32_intCast (-3) (by norm_num)
  have e5 : f32 ((0 : ℚ)) = 0 := by
    simpa using f32_intCast (0) (by norm_num)
  have e6 : f32 (-(16777214 : ℚ)) = -16777214 := by
    simpa using f32_intCast (-16777214) (by norm_num)
  have e7 : f32 (-(16777218 : ℚ)) = -16777218 := by
    have h := fround_eval 23 (-(16777218 : ℚ)) (24) (-8388609) (by norm_num [abs_of_pos, abs_of_neg])
      (by norm_num [abs_of_pos, abs_of_neg]) (round_half_even_down _ (-8388609) (by norm_num) (by norm_num))
    unfold f32
    rw [h]
    norm_num
  have e8 : f32 (-(16777215 : ℚ)) = -16777215 := by
    simpa using f32_intCast (-16777215) (by norm_num)
  have e9 : f32 (-(16777217 : ℚ)) = -16777216 := by
    have h := fround_eval 23 (-(16777217 : ℚ)) (24) (-8388608) (by norm_num [abs_of_pos, abs_of_neg])
      (by norm_num [abs_of_pos, abs_of_neg]) (by rw [round_half_even_tie _ (-8388609) (by norm_num)]; norm_num)
    unfold f32
    rw [h]
    norm_num
  have e10 : f32 ((281474976710652 : ℚ)) = 281474976710656 := by
    have h := fround_eval 23 ((281474976710652 : ℚ)) (47) (16777216) (by norm_num [abs_of_pos, abs_of_neg])
      (by norm_num [abs_of_pos, abs_of_neg]) (by rw [round_half_even_up _ (16777215) (by norm_num) (by norm_num)]; norm_num)
    unfold f32
    rw [h]
    norm_num
  have e11 : f32 ((281474959933440 : ℚ)) = 281474959933440 := by
    have h := fround_eval 23 ((281474959933440 : ℚ)) (47) (16777215) (by norm_num [abs_of_pos, abs_of_neg])
      (by norm_num [abs_of_pos, abs_of_neg]) (round_half_even_down _ (16777215) (by norm_num) (by norm_num))
    unfold f32
    rw [h]
    norm_num
  have e12 : f32 ((16777216 : ℚ)) = 16777216 := by
    simpa using f32_intCast (16777216) (by norm_num)
  have e13 : f32 (-(1 : ℚ)) = -1 := by
    simpa using f32_intCast (-1) (by norm_num)
  refine ⟨⟨?_, ?_⟩, ?_, ?_, ?_, ?_⟩
  · norm_num [e1, e2, e3, e4, e5, e6, e7, e8, e9, e10, e11, e12, e13]
  · norm_num [e1, e2, e3, e4, e5, e6, e7, e8, e9, e10, e11, e12, e13]
  · simp only [orientation, f32_sub, f32_mul]
    norm_num [e1, e2, e3, e4, e5, e6, e7, e8, e9, e10, e11, e12, e13]
  · norm_num [orientation_exact]
  · simp only [orientation, f32_sub, f32_mul]
    norm_num [e1, e2, e3, e4, e5, e6, e7, e8, e9, e10, e11, e12, e13]
  · simp only [is_inside_triangle, orientation, f32_sub, f32_mul]
    norm_num [e1, e2, e3, e4, e5, e6, e7, e8, e9, e10, e11, e12, e13]

/-- C10 (amended): for a triangle whose vertices have integer coordinates of
magnitude at most `1024` (every binary32 operation is then exact) and which is
clockwise (`orientation a b c ≤ 0`), `is_inside_triangle` is true at `a`, `b`,
`c`, and at the centroid `g` when the centroid has integer coordinates
(`3 g = a + b + c`). -/
theorem is_inside_triangle_vertices_centroid_small (a b c g : v2i)
    (ha : small_point a) (hb : small_point b) (hc : small_point c)
    (h : orientation (exact_v2f a) (exact_v2f b) (exact_v2f c) ≤ 0) :
    is_inside_triangle (exact_v2f a) (exact_v2f a) (exact_v2f b) (exact_v2f c) = true ∧
    is_inside_triangle (exact_v2f b) (exact_v2f a) (exact_v2f b) (exact_v2f c) = true ∧
    is_inside_triangle (exact_v2f c) (exact_v2f a) (exact_v2f b) (exact_v2f c) = true ∧
    ((3 * g.x = a.x + b.x + c.x ∧ 3 * g.y = a.y + b.y + c.y) →
      is_inside_triangle (exact_v2f g) (exact_v2f a) (exact_v2f b) (exact_v2f c) = true) := by
  rw [orientation_small a b c ha hb hc] at h
  have key : ∀ p : v2i, small_point p →
      orientation_exact (exact_v2f a) (exact_v2f b) (exact_v2f p) ≤ 0 →
      orientation_exact (exact_v2f b) (exact_v2f c) (exact_v2f p) ≤ 0 →
      orientation_exact (exact_v2f c) (exact_v2f a) (exact_v2f p) ≤ 0 →
      is_inside_triangle (exact_v2f p) (exact_v2f a) (exact_v2f b) (exact_v2f c) = true := by
    intro p hp h1 h2 h3
    simp only [is_inside_triangle, orientation_small a b p ha hb hp,
      orientation_small b c p hb hc hp, orientation_small c a p hc ha hp, h1, h2, h3,
      decide_True, Bool.and_self]
  simp only [orientation_exact, exact_v2f] at h
  refine ⟨key a ha ?_ ?_ ?_, key b hb ?_ ?_ ?_, key c hc ?_ ?_ ?_, ?_⟩
  · simp only [orientation_exact, exact_v2f]; nlinarith
  · simp only [orientation_exact, exact_v2f]; nlinarith
  · simp only [orientation_exact, exact_v2f]; nlinarith
  · simp only [orientation_exact, exact_v2f]; nlinarith
  · simp only [orientation_exact, exact_v2f]; nlinarith
  · simp only [orientation_exact, exact_v2f]; nlinarith
  · simp only [orientation_exact, exact_v2f]; nlinarith
  · simp only [orientation_exact, exact_v2f]; nlinarith
  · simp only [orientation_exact, exact_v2f]; nlinarith
  · rintro ⟨hx, hy⟩
    have hg : small_point g := by
      obtain ⟨ha1, ha2⟩ := ha
      obtain ⟨hb1, hb2⟩ := hb
      obtain ⟨hc1, hc2⟩ := hc
      have a1 := abs_le.mp ha1
      have a2 := abs_le.mp ha2
      have b1 := abs_le.mp hb1
      have b2 := abs_le.mp hb2
      have c1 := abs_le.mp hc1
      have c2 := abs_le.mp hc2
      exact ⟨abs_le.mpr (by omega), abs_le.mpr (by omega)⟩
    have qx : (3 : ℚ) * (g.x : ℚ) = (a.x : ℚ) + b.x + c.x := by exact_mod_cast hx
    have qy : (3 : ℚ) * (g.y : ℚ) = (a.y : ℚ) + b.y + c.y := by exact_mod_cast hy
    apply key g hg
    · simp only [orientation_exact, exact_v2f]
      have e : 3 * (((b.x : ℚ) - a.x) * ((g.y : ℚ) - a.y) - ((g.x : ℚ) - a.x) * ((b.y : ℚ) - a.y))
          = ((b.x : ℚ) - a.x) * ((c.y : ℚ) - a.y) - ((c.x : ℚ) - a.x) * ((b.y : ℚ) - a.y) := by
        linear_combination ((b.x : ℚ) - a.x) * qy - ((b.y : ℚ) - a.y) * qx
      linarith
    · simp only [orientation_exact, exact_v2f]
      have e : 3 * (((c.x : ℚ) - b.x) * ((g.y : ℚ) - b.y) - ((g.x : ℚ) - b.x) * ((c.y : ℚ) - b.y))
          = ((b.x : ℚ) - a.x) * ((c.y : ℚ) - a.y) - ((c.x : ℚ) - a.x) * ((b.y : ℚ) - a.y) := by
        linear_combination ((c.x : ℚ) - b.x) * qy - ((c.y : ℚ) - b.y) * qx
      linarith
    · simp only [orientation_exact, exact_v2f]
      have e : 3 * (((a.x : ℚ) - c.x) * ((g.y : ℚ) - c.y) - ((g.x : ℚ) - c.x) * ((a.y : ℚ) - c.y))
          = ((b.x : ℚ) - a.x) * ((c.y : ℚ) - a.y) - ((c.x : ℚ) - a.x) * ((b.y : ℚ) - a.y) := by
        linear_combination ((a.x : ℚ) - c.x) * qy - ((a.y : ℚ) - c.y) * qx
      linarith

/-- Witness for C10 (amended): the clockwise triangle `(0,0)`, `(0,3)`, `(3,0)`
with centroid `(1,1)`. -/
theorem is_inside_triangle_vertices_centroid_small_witness :
    (small_point ⟨0, 0⟩ ∧ small_point ⟨0, 3⟩ ∧ small_point ⟨3, 0⟩ ∧
      orientation (exact_v2f ⟨0, 0⟩) (exact_v2f ⟨0, 3⟩) (exact_v2f ⟨3, 0⟩) ≤ 0 ∧
      (3 * (1 : Int) = 0 + 0 + 3 ∧ 3 * (1 : Int) = 0 + 3 + 0)) ∧
    is_inside_triangle (exact_v2f ⟨0, 0⟩) (exact_v2f ⟨0, 0⟩) (exact_v2f ⟨0, 3⟩)
      (exact_v2f ⟨3, 0⟩) = true ∧
    is_inside_triangle (exact_v2f ⟨1, 1⟩) (exact_v2f ⟨0, 0⟩) (exact_v2f ⟨0, 3⟩)
      (exact_v2f ⟨3, 0⟩) = true :=
  have s0 : small_point ⟨0, 0⟩ := by norm_num [small_point]
  have s1 : small_point ⟨0, 3⟩ := by norm_num [small_point]
  have s2 : small_point ⟨3, 0⟩ := by norm_num [small_point]
  have ho : orientation (exact_v2f ⟨0, 0⟩) (exact_v2f ⟨0, 3⟩) (exact_v2f ⟨3, 0⟩) ≤ 0 := by
    rw [orientation_small _ _ _ s0 s1 s2]
    norm_num [orientation_exact, exact_v2f]
  ⟨⟨s0, s1, s2, ho, by decide⟩,
   (is_inside_triangle_vertices_centroid_small ⟨0, 0⟩ ⟨0, 3⟩ ⟨3, 0⟩ ⟨1, 1⟩ s0 s1 s2 ho).1,
   (is_inside_triangle_vertices_centroid_small ⟨0, 0⟩ ⟨0, 3⟩ ⟨3, 0⟩ ⟨1, 1⟩ s0 s1 s2 ho).2.2.2
     (by decide)⟩

/-- C19, as stated, fails on the binary32 code: for `a = (0,0)`,
`b = (5489,4381)`, `c = (1184,945)` the computed (and the exact)
`orientation a b c` is `1 > 0`, yet the three edge tests at `p = a` all give
`0` and `is_inside_triangle` is true; the three computed orientations do not
add up to `orientation a b c`. -/
theorem is_inside_triangle_ccw_true :
    orientation ⟨0, 0⟩ ⟨5489, 4381⟩ ⟨1184, 945⟩ = 1 ∧
    orientation_exact ⟨0, 0⟩ ⟨5489, 4381⟩ ⟨1184, 945⟩ = 1 ∧
    is_inside_triangle ⟨0, 0⟩ ⟨0, 0⟩ ⟨5489, 4381⟩ ⟨1184, 945⟩ = true ∧
    orientation ⟨0, 0⟩ ⟨5489, 4381⟩ ⟨0, 0⟩ + orientation ⟨5489, 4381⟩ ⟨1184, 945⟩ ⟨0, 0⟩
      + orientation ⟨1184, 945⟩ ⟨0, 0⟩ ⟨0, 0⟩ ≠ orientation ⟨0, 0⟩ ⟨5489, 4381⟩ ⟨1184, 945⟩ := by
  have e1 : f32 ((5489 : ℚ)) = 5489 := by
    simpa using f32_intCast (5489) (by norm_num)
  have e2 : f32 ((945 : ℚ)) = 945 := by
    simpa using f32_intCast (945) (by norm_num)
  have e3 : f32 ((1184 : ℚ)) = 1184 := by
    simpa using f32_intCast (1184) (by norm_num)
  have e4 : f32 ((4381 : ℚ)) = 4381 := by
    simpa using f32_intCast (4381) (by norm_num)
  have e5 : f32 ((5187105 : ℚ)) = 5187105 := by
    simpa using f32_intCast (5187105) (by norm_num)
  have e6 : f32 ((5187104 : ℚ)) = 5187104 := by
    simpa using f32_intCast (5187104) (by norm_num)
  have e7 : f32 ((1 : ℚ)) = 1 := by
    simpa using f32_intCast (1) (by norm_num)
  have e8 : f32 ((0 : ℚ)) = 0 := by
    simpa using f32_intCast (0) (by norm_num)
  have e9 : f32 (-(4305 : ℚ)) = -4305 := by
    simpa using f32_intCast (-4305) (by norm_num)
  have e10 : f32 (-(4381 : ℚ)) = -4381 := by
    simpa using f32_intCast (-4381) (by norm_num)
  have e11 : f32 (-(5489 : ℚ)) = -5489 := by
    simpa using f32_intCast (-5489) (by norm_num)
  have e12 : f32 (-(3436 : ℚ)) = -3436 := by
    simpa using f32_intCast (-3436) (by norm_num)
  have e13 : f32 ((18860205 : ℚ)) = 18860204 := by
    have h := fround_eval 23 ((18860205 : ℚ)) (24) (9430102) (by norm_num [abs_of_pos, abs_of_neg])
      (by norm_num [abs_of_pos, abs_of_neg]) (by rw [round_half_even_tie _ (9430102) (by norm_num)]; norm_num)
    unfold f32
    rw [h]
    norm_num
  have e14 : f32 ((18860204 : ℚ)) = 18860204 := by
    have h := fround_eval 23 ((18860204 : ℚ)) (24) (9430102) (by norm_num [abs_of_pos, abs_of_neg])
      (by norm_num [abs_of_pos, abs_of_neg]) (round_half_even_down _ (9430102) (by norm_num) (by norm_num))
    unfold f32
    rw [h]
    norm_num
  have e15 : f32 (-(1184 : ℚ)) = -1184 := by
    simpa using f32_intCast (-1184) (by norm_num)
  have e16 : f32 (-(945 : ℚ)) = -945 := by
    simpa using f32_intCast (-945) (by norm_num)
  have e17 : f32 ((1118880 : ℚ)) = 1118880 := by
    simpa using f32_intCast (1118880) (by norm_num)
  refine ⟨?_, ?_, ?_, ?_⟩
  · simp only [orientation, f32_sub, f32_mul]
    norm_num [e1, e2, e3, e4, e5, e6, e7, e8, e9, e10, e11, e12, e13, e14, e15, e16, e17]
  · norm_num [orientation_exact]
  · simp only [is_inside_triangle, orientation, f32_sub, f32_mul]
    norm_num [e1, e2, e3, e4, e5, e6, e7, e8, e9, e10, e11, e12, e13, e14, e15, e16, e17]
  · simp only [orientation, f32_sub, f32_mul]
    norm_num [e1, e2, e3, e4, e5, e6, e7, e8, e9, e10, e11, e12, e13, e14, e15, e16, e17]

/-- C19 (amended): for a triangle and a point `p` with integer coordinates of
magnitude at most `1024` (every binary32 operation is then exact), if
`orientation a b c > 0` then `is_inside_triangle p a b c` is false, and the
three edge orientations add up to `orientation a b c`. -/
theorem is_inside_triangle_false_of_ccw_small (p a b c : v2i)
    (hp : small_point p) (ha : small_point a) (hb : small_point b) (hc : small_point c)
    (h : orientation (exact_v2f a) (exact_v2f b) (exact_v2f c) > 0) :
    is_inside_triangle (exact_v2f p) (exact_v2f a) (exact_v2f b) (exact_v2f c) = false ∧
    orientation (exact_v2f a) (exact_v2f b) (exact_v2f p)
      + orientation (exact_v2f b) (exact_v2f c) (exact_v2f p)
      + orientation (exact_v2f c) (exact_v2f a) (exact_v2f p)
      = orientation (exact_v2f a) (exact_v2f b) (exact_v2f c) := by
  have hs : orientation (exact_v2f a) (exact_v2f b) (exact_v2f p)
      + orientation (exact_v2f b) (exact_v2f c) (exact_v2f p)
      + orientation (exact_v2f c) (exact_v2f a) (exact_v2f p)
      = orientation (exact_v2f a) (exact_v2f b) (exact_v2f c) := by
    rw [orientation_small a b p ha hb hp, orientation_small b c p hb hc hp,
      orientation_small c a p hc ha hp, orientation_small a b c ha hb hc]
    exact orientation_exact_sum _ _ _ _
  refine ⟨?_, hs⟩
  by_contra hc2
  rw [Bool.not_eq_false] at hc2
  simp only [is_inside_triangle, Bool.and_eq_true, decide_eq_true_eq] at hc2
  obtain ⟨⟨h1, h2⟩, h3⟩ := hc2
  linarith

/-- Witness for C19 (amended): the counter-clockwise triangle `(0,0)`, `(4,0)`,
`(0,4)` and the point `(1,1)`, which lies inside it geometrically. -/
theorem is_inside_triangle_false_of_ccw_small_witness :
    (small_point ⟨1, 1⟩ ∧ small_point ⟨0, 0⟩ ∧ small_point ⟨4, 0⟩ ∧ small_point ⟨0, 4⟩ ∧
      orientation (exact_v2f ⟨0, 0⟩) (exact_v2f ⟨4, 0⟩) (exact_v2f ⟨0, 4⟩) > 0) ∧
    is_inside_triangle (exact_v2f ⟨1, 1⟩) (exact_v2f ⟨0, 0⟩) (exact_v2f ⟨4, 0⟩)
      (exact_v2f ⟨0, 4⟩) = false :=
  have sp : small_point ⟨1, 1⟩ := by norm_num [small_point]
  have s0 : small_point ⟨0, 0⟩ := by norm_num [small_point]
  have s1 : small_point ⟨4, 0⟩ := by norm_num [small_point]
  have s2 : small_point ⟨0, 4⟩ := by norm_num [small_point]
  have ho : orientation (exact_v2f ⟨0, 0⟩) (exact_v2f ⟨4, 0⟩) (exact_v2f ⟨0, 4⟩) > 0 := by
    rw [orientation_small _ _ _ s0 s1 s2]
    norm_num [orientation_exact, exact_v2f]
  ⟨⟨sp, s0, s1, s2, ho⟩,
   (is_inside_triangle_false_of_ccw_small ⟨1, 1⟩ ⟨0, 0⟩ ⟨4, 0⟩ ⟨0, 4⟩ sp s0 s1 s2 ho).1⟩

/-! ## Segment intersection -/

/-- C7 fails on the code: with `a = (0,0)`, `b = (10000,0)`, `u = (-1,-5)`,
`v = (-1,5)` the raw parameter is `t = -0.0001`, inside the lower band, and
`intersect_line_segments` reports a hit at `(10000, 0) = b`, not at `a = (0,0)`:
the lower band is snapped to `1`. -/
theorem intersect_line_segments_lower_band_reports_b (out : V2 ℚ) :
    raw_t (K := ℚ) ⟨0, 0⟩ ⟨10000, 0⟩ ⟨-1, -5⟩ ⟨-1, 5⟩ = -(1 / 10000) ∧
    intersect_line_segments ⟨0, 0⟩ ⟨10000, 0⟩ ⟨-1, -5⟩ ⟨-1, 5⟩ out = (true, ⟨10000, 0⟩) ∧
    (intersect_line_segments ⟨0, 0⟩ ⟨10000, 0⟩ ⟨-1, -5⟩ ⟨-1, 5⟩ out).2 ≠ ⟨0, 0⟩ := by
  have e1 : f32 (-(10 : ℚ)) = -10 := by
    simpa using f32_intCast (-10) (by norm_num)
  have e2 : f32 ((100000 : ℚ)) = 100000 := by
    simpa using f32_intCast (100000) (by norm_num)
  have e3 : f32 (-((1 : ℚ) / 10000)) = -(13743895 / 137438953472) := by
    have h := fround_eval 23 (-((1 : ℚ) / 10000)) (-14) (-13743895) (by norm_num [abs_of_pos, abs_of_neg])
      (by norm_num [abs_of_pos, abs_of_neg]) (by rw [round_half_even_up _ (-13743896) (by norm_num) (by norm_num)]; norm_num)
    unfold f32
    rw [h]
    norm_num
  have e4 : f64 ((1001 : ℚ) / 1000) = 2254051613498933 / 2251799813685248 := by
    have h := fround_eval 52 ((1001 : ℚ) / 1000) (0) (4508103226997866) (by norm_num [abs_of_pos, abs_of_neg])
      (by norm_num [abs_of_pos, abs_of_neg]) (round_half_even_down _ (4508103226997866) (by norm_num) (by norm_num))
    unfold f64
    rw [h]
    norm_num
  have e5 : f64 ((1 : ℚ) / 1000) = 1152921504606847 / 1152921504606846976 := by
    have h := fround_eval 52 ((1 : ℚ) / 1000) (-10) (4611686018427388) (by norm_num [abs_of_pos, abs_of_neg])
      (by norm_num [abs_of_pos, abs_of_neg]) (by rw [round_half_even_up _ (4611686018427387) (by norm_num) (by norm_num)]; norm_num)
    unfold f64
    rw [h]
    norm_num
  have e6 : f32 ((0 : ℚ)) = 0 := by
    simpa using f32_intCast (0) (by norm_num)
  have e7 : f32 ((10000 : ℚ)) = 10000 := by
    simpa using f32_intCast (10000) (by norm_num)
  have hval : intersect_line_segments ⟨0, 0⟩ ⟨10000, 0⟩ ⟨-1, -5⟩ ⟨-1, 5⟩ out
      = (true, ⟨10000, 0⟩) := by
    simp only [intersect_line_segments, v2i_sub, v2i_perpendicular, v2i_dot, i32_sub, i32_to_f32,
      f32_add, f32_mul, f32_div, wrap32]
    norm_num [e1, e2, e3, e4, e5, e6, e7]
  refine ⟨?_, hval, ?_⟩
  · norm_num [raw_t, DOT, V2.sub, perpendicular]
  · rw [hval]
    norm_num

/-- C8, as stated, fails on the code.  Rounding: at `a = (0,0)`, `b = (37,0)`,
`u = (12,-1)`, `v = (12,1)` the exact parameter is `t = 12/37`, the exact
intersection is `(12, 0)`, and the code reports `(12582911/1048576, 0)`, about
`(11.999999, 0)`, which is not `a + t (b - a)` and not collinear with `u`, `v`.
Overflow: at `a = (0,0)`, `b = (50000,0)`, `u = (25000,-50000)`,
`v = (25000,50000)` the exact `t` is `1/2`, but `det = 5000000000` leaves the
`i32` range and the code reports no hit. -/
theorem intersect_line_segments_point_off_line :
    (DOT (V2.sub (⟨37, 0⟩ : v2i) ⟨0, 0⟩) (perpendicular (V2.sub (⟨12, 1⟩ : v2i) ⟨12, -1⟩)) ≠ 0 ∧
      raw_t (K := ℚ) ⟨0, 0⟩ ⟨37, 0⟩ ⟨12, -1⟩ ⟨12, 1⟩ = 12 / 37) ∧
    intersect_line_segments ⟨0, 0⟩ ⟨37, 0⟩ ⟨12, -1⟩ ⟨12, 1⟩ ⟨7, 7⟩
      = (true, ⟨12582911 / 1048576, 0⟩) ∧
    (⟨12582911 / 1048576, 0⟩ : V2 ℚ) ≠ ⟨0 + 12 / 37 * (37 - 0), 0 + 12 / 37 * (0 - 0)⟩ ∧
    orientation_exact ⟨12, -1⟩ ⟨12, 1⟩ ⟨12582911 / 1048576, 0⟩ ≠ 0 ∧
    (DOT (V2.sub (⟨50000, 0⟩ : v2i) ⟨0, 0⟩)
        (perpendicular (V2.sub (⟨25000, 50000⟩ : v2i) ⟨25000, -50000⟩)) ≠ 0 ∧
      raw_t (K := ℚ) ⟨0, 0⟩ ⟨50000, 0⟩ ⟨25000, -50000⟩ ⟨25000, 50000⟩ = 1 / 2) ∧
    intersect_line_segments ⟨0, 0⟩ ⟨50000, 0⟩ ⟨25000, -50000⟩ ⟨25000, 50000⟩ ⟨7, 7⟩
      = (false, ⟨7, 7⟩) := by
  have e1 : f32 ((24 : ℚ)) = 24 := by
    simpa using f32_intCast (24) (by norm_num)
  have e2 : f32 ((74 : ℚ)) = 74 := by
    simpa using f32_intCast (74) (by norm_num)
  have e3 : f32 ((12 : ℚ) / 37) = 5441259 / 16777216 := by
    have h := fround_eval 23 ((12 : ℚ) / 37) (-2) (10882518) (by norm_num [abs_of_pos, abs_of_neg])
      (by norm_num [abs_of_pos, abs_of_neg]) (round_half_even_down _ (10882518) (by norm_num) (by norm_num))
    unfold f32
    rw [h]
    norm_num
  have e4 : f64 ((1001 : ℚ) / 1000) = 2254051613498933 / 2251799813685248 := by
    have h := fround_eval 52 ((1001 : ℚ) / 1000) (0) (4508103226997866) (by norm_num [abs_of_pos, abs_of_neg])
      (by norm_num [abs_of_pos, abs_of_neg]) (round_half_even_down _ (4508103226997866) (by norm_num) (by norm_num))
    unfold f64
    rw [h]
    norm_num
  have e5 : f64 ((1 : ℚ) / 1000) = 1152921504606847 / 1152921504606846976 := by
    have h := fround_eval 52 ((1 : ℚ) / 1000) (-10) (4611686018427388) (by norm_num [abs_of_pos, abs_of_neg])
      (by norm_num [abs_of_pos, abs_of_neg]) (by rw [round_half_even_up _ (4611686018427387) (by norm_num) (by norm_num)]; norm_num)
    unfold f64
    rw [h]
    norm_num
  have e6 : f32 ((0 : ℚ)) = 0 := by
    simpa using f32_intCast (0) (by norm_num)
  have e7 : f32 ((37 : ℚ)) = 37 := by
    simpa using f32_intCast (37) (by norm_num)
  have e8 : f32 ((201326583 : ℚ) / 16777216) = 12582911 / 1048576 := by
    have h := fround_eval 23 ((201326583 : ℚ) / 16777216) (3) (12582911) (by norm_num [abs_of_pos, abs_of_neg])
      (by norm_num [abs_of_pos, abs_of_neg]) (round_half_even_down _ (12582911) (by norm_num) (by norm_num))
    unfold f32
    rw [h]
    norm_num
  have e9 : f32 ((12582911 : ℚ) / 1048576) = 12582911 / 1048576 := by
    have h := fround_eval 23 ((12582911 : ℚ) / 1048576) (3) (12582911) (by norm_num [abs_of_pos, abs_of_neg])
      (by norm_num [abs_of_pos, abs_of_neg]) (round_half_even_down _ (12582911) (by norm_num) (by norm_num))
    unfold f32
    rw [h]
    norm_num
  have e10 : f32 (-(1794967296 : ℚ)) = -1794967296 := by
    have h := fround_eval 23 (-(1794967296 : ℚ)) (30) (-14023182) (by norm_num [abs_of_pos, abs_of_neg])
      (by norm_num [abs_of_pos, abs_of_neg]) (round_half_even_down _ (-14023182) (by norm_num) (by norm_num))
    unfold f32
    rw [h]
    norm_num
  have e11 : f32 ((705032704 : ℚ)) = 705032704 := by
    have h := fround_eval 23 ((705032704 : ℚ)) (29) (11016136) (by norm_num [abs_of_pos, abs_of_neg])
      (by norm_num [abs_of_pos, abs_of_neg]) (round_half_even_down _ (11016136) (by norm_num) (by norm_num))
    unfold f32
    rw [h]
    norm_num
  have e12 : f32 (-((7011591 : ℚ) / 2754034)) = -(10678425 / 4194304) := by
    have h := fround_eval 23 (-((7011591 : ℚ) / 2754034)) (1) (-10678425) (by norm_num [abs_of_pos, abs_of_neg])
      (by norm_num [abs_of_pos, abs_of_neg]) (round_half_even_down _ (-10678425) (by norm_num) (by norm_num))
    unfold f32
    rw [h]
    norm_num
  refine ⟨⟨by decide, ?_⟩, ?_, ?_, ?_, ⟨by decide, ?_⟩, ?_⟩
  · norm_num [raw_t, DOT, V2.sub, perpendicular]
  · simp only [intersect_line_segments, v2i_sub, v2i_perpendicular, v2i_dot, i32_sub, i32_to_f32,
      f32_add, f32_mul, f32_div, wrap32]
    norm_num [e1, e2, e3, e4, e5, e6, e7, e8, e9, e10, e11, e12]
  · norm_num
  · norm_num [orientation_exact]
  · norm_num [raw_t, DOT, V2.sub, perpendicular]
  · simp only [intersect_line_segments, v2i_sub, v2i_perpendicular, v2i_dot, i32_sub, i32_to_f32,
      f32_add, f32_mul, f32_div, wrap32]
    norm_num [e1, e2, e3, e4, e5, e6, e7, e8, e9, e10, e11, e12]

/-- The exact intersection point `a + t (b - a)` is collinear with `u` and `v`. -/
theorem raw_t_point_collinear (a b u v : v2i)
    (hdet : DOT (b.sub a) (perpendicular (v.sub u)) ≠ 0) :
    orientation_exact (exact_v2f u) (exact_v2f v)
      ⟨(a.x : ℚ) + raw_t a b u v * ((b.x : ℚ) - (a.x : ℚ)),
       (a.y : ℚ) + raw_t a b u v * ((b.y : ℚ) - (a.y : ℚ))⟩ = 0 := by
  have hd : ((DOT (b.sub a) (perpendicular (v.sub u)) : Int) : ℚ) ≠ 0 := by
    exact_mod_cast hdet
  have ht : raw_t (K := ℚ) a b u v * ((DOT (b.sub a) (perpendicular (v.sub u)) : Int) : ℚ)
      = ((DOT (u.sub a) (perpendicular (v.sub u)) : Int) : ℚ) := by
    unfold raw_t
    field_simp
  simp only [DOT, V2.sub, perpendicular] at ht
  push_cast at ht
  simp only [orientation_exact, exact_v2f]
  linear_combination (-1 : ℚ) * ht

/-- C8 (amended): for integer points with coordinates of magnitude at most
`1024` (no `i32` operation wraps and `det`, the numerator and the differences
are binary32 values), `det ≠ 0` and exact parameter `t` in `[0, 1]`,
`intersect_line_segments` reports a hit and each coordinate of the reported
point is within `0.001` of the exact point `X = a + t (b - a)`, which lies on
the closed segment `[a, b]` and is collinear with `u` and `v`; no condition
relates the point to the extent of `[u, v]`. -/
theorem intersect_line_segments_hit_near (a b u v : v2i) (out : V2 ℚ)
    (ha : small_point a) (hb : small_point b) (hu : small_point u) (hv : small_point v)
    (hdet : DOT (b.sub a) (perpendicular (v.sub u)) ≠ 0)
    (h0 : 0 ≤ raw_t (K := ℚ) a b u v) (h1 : raw_t (K := ℚ) a b u v ≤ 1) :
    (intersect_line_segments a b u v out).1 = true ∧
    |(intersect_line_segments a b u v out).2.x
        - ((a.x : ℚ) + raw_t a b u v * ((b.x : ℚ) - (a.x : ℚ)))| ≤ 1 / 1000 ∧
    |(intersect_line_segments a b u v out).2.y
        - ((a.y : ℚ) + raw_t a b u v * ((b.y : ℚ) - (a.y : ℚ)))| ≤ 1 / 1000 ∧
    orientation_exact (exact_v2f u) (exact_v2f v)
      ⟨(a.x : ℚ) + raw_t a b u v * ((b.x : ℚ) - (a.x : ℚ)),
       (a.y : ℚ) + raw_t a b u v * ((b.y : ℚ) - (a.y : ℚ))⟩ = 0 := by
  obtain ⟨evu, bvu1, bvu2⟩ := v2i_sub_small v u hv hu
  obtain ⟨eba, bba1, bba2⟩ := v2i_sub_small b a hb ha
  obtain ⟨eua, bua1, bua2⟩ := v2i_sub_small u a hu ha
  have eperp := v2i_perpendicular_small (v.sub u) bvu1
  have bperp : |(perpendicular (v.sub u)).x| ≤ 2048 ∧ |(perpendicular (v.sub u)).y| ≤ 2048 := by
    simp only [perpendicular, abs_neg]
    exact ⟨bvu2, bvu1⟩
  obtain ⟨edet, bdet⟩ := v2i_dot_small (b.sub a) (perpendicular (v.sub u)) ⟨bba1, bba2⟩ bperp
  obtain ⟨enum, bnum⟩ := v2i_dot_small (u.sub a) (perpendicular (v.sub u)) ⟨bua1, bua2⟩ bperp
  have fdet : i32_to_f32 (DOT (b.sub a) (perpendicular (v.sub u))) =
      ((DOT (b.sub a) (perpendicular (v.sub u)) : Int) : ℚ) :=
    f32_intCast _ (by omega)
  have fnum : i32_to_f32 (DOT (u.sub a) (perpendicular (v.sub u))) =
      ((DOT (u.sub a) (perpendicular (v.sub u)) : Int) : ℚ) :=
    f32_intCast _ (by omega)
  have ht : f32_div (i32_to_f32 (DOT (u.sub a) (perpendicular (v.sub u))))
      (i32_to_f32 (DOT (b.sub a) (perpendicular (v.sub u)))) = f32 (raw_t a b u v) := by
    rw [fdet, fnum]; rfl
  obtain ⟨t0, t1⟩ := fround_unit_interval 23 (by norm_num) _ h0 h1
  change 0 ≤ f32 (raw_t a b u v) at t0
  change f32 (raw_t a b u v) ≤ 1 at t1
  have n1 : ¬ (f32 (raw_t (K := ℚ) a b u v) > 1 ∧ f32 (raw_t (K := ℚ) a b u v) < f64 (1001 / 1000)) :=
    fun h => absurd h.1 (not_lt.mpr t1)
  have n2 : ¬ (f32 (raw_t (K := ℚ) a b u v) < 0 ∧ f32 (raw_t (K := ℚ) a b u v) > -f64 (1 / 1000)) :=
    fun h => absurd h.1 (not_lt.mpr t0)
  have hdx : i32_to_f32 (i32_sub b.x a.x) = ((b.x - a.x : Int) : ℚ) := by
    unfold i32_sub
    have : |b.x - a.x| ≤ 2048 := bba1
    rw [wrap32_of_small _ (by omega)]
    exact f32_intCast _ (by omega)
  have hdy : i32_to_f32 (i32_sub b.y a.y) = ((b.y - a.y : Int) : ℚ) := by
    unfold i32_sub
    have : |b.y - a.y| ≤ 2048 := bba2
    rw [wrap32_of_small _ (by omega)]
    exact f32_intCast _ (by omega)
  have hax : i32_to_f32 a.x = (a.x : ℚ) := f32_intCast _ (by have := ha.1; omega)
  have hay : i32_to_f32 a.y = (a.y : ℚ) := f32_intCast _ (by have := ha.2; omega)
  have hval : intersect_line_segments a b u v out =
      (true, ⟨f32 ((a.x : ℚ) + f32 (f32 (raw_t a b u v) * ((b.x - a.x : Int) : ℚ))),
              f32 ((a.y : ℚ) + f32 (f32 (raw_t a b u v) * ((b.y - a.y : Int) : ℚ)))⟩) := by
    unfold intersect_line_segments
    simp only [evu, eba, eua, eperp, edet, enum, hdet, ne_eq, not_false_eq_true, if_true, ht,
      if_neg n1, if_neg n2, ge_iff_le, t0, t1, and_self, hdx, hdy, hax, hay, f32_add, f32_mul]
  have herr : |f32 (raw_t (K := ℚ) a b u v) - raw_t a b u v| ≤ 1 / 2 ^ 24 :=
    f32_error _ 1 (by rw [abs_of_nonneg h0]; exact h1)
  have hD : ∀ D : Int, |D| ≤ 2048 →
      |f32 (raw_t (K := ℚ) a b u v) * (D : ℚ) - raw_t a b u v * (D : ℚ)| ≤ 2048 / 2 ^ 24 ∧
      |raw_t (K := ℚ) a b u v * (D : ℚ)| ≤ 2048 := by
    intro D hD
    have hDq := small_abs_cast D 2048 hD
    constructor
    · rw [← sub_mul, abs_mul]
      calc |f32 (raw_t (K := ℚ) a b u v) - raw_t a b u v| * |(D : ℚ)|
          ≤ 1 / 2 ^ 24 * (2048 : ℚ) := by
            apply mul_le_mul herr _ (abs_nonneg _) (by norm_num)
            simpa using hDq
        _ = 2048 / 2 ^ 24 := by ring
    · rw [abs_mul, abs_of_nonneg h0]
      calc raw_t (K := ℚ) a b u v * |(D : ℚ)| ≤ 1 * (2048 : ℚ) := by
            apply mul_le_mul h1 _ (abs_nonneg _) (by norm_num)
            simpa using hDq
        _ = 2048 := by ring
  rw [hval]
  refine ⟨rfl, ?_, ?_, raw_t_point_collinear a b u v hdet⟩
  · have hx := hD (b.x - a.x) bba1
    have := f32_add_rounded_error a.x _ _ ha.1 hx.2 hx.1
    simpa [Int.cast_sub] using this
  · have hy := hD (b.y - a.y) bba2
    have := f32_add_rounded_error a.y _ _ ha.2 hy.2 hy.1
    simpa [Int.cast_sub] using this

/-- Witness for C8 (amended): `((0,0),(10,0),(5,100),(5,200))` reports a hit at
`(5,0)` although `(5,0)` is not on `[u, v]`; `((0,0),(10,0),(5,-5),(5,5))`
reports a hit at `(5,0)` as well. -/
theorem intersect_line_segments_hit_near_witness :
    ((small_point ⟨0, 0⟩ ∧ small_point ⟨10, 0⟩ ∧ small_point ⟨5, 100⟩ ∧ small_point ⟨5, 200⟩) ∧
      DOT (V2.sub (⟨10, 0⟩ : v2i) ⟨0, 0⟩) (perpendicular (V2.sub (⟨5, 200⟩ : v2i) ⟨5, 100⟩)) ≠ 0 ∧
      0 ≤ raw_t (K := ℚ) ⟨0, 0⟩ ⟨10, 0⟩ ⟨5, 100⟩ ⟨5, 200⟩ ∧
      raw_t (K := ℚ) ⟨0, 0⟩ ⟨10, 0⟩ ⟨5, 100⟩ ⟨5, 200⟩ ≤ 1) ∧
    (intersect_line_segments ⟨0, 0⟩ ⟨10, 0⟩ ⟨5, 100⟩ ⟨5, 200⟩ ⟨7, 7⟩).1 = true ∧
    intersect_line_segments ⟨0, 0⟩ ⟨10, 0⟩ ⟨5, 100⟩ ⟨5, 200⟩ ⟨7, 7⟩ = (true, ⟨5, 0⟩) ∧
    intersect_line_segments ⟨0, 0⟩ ⟨10, 0⟩ ⟨5, -5⟩ ⟨5, 5⟩ ⟨7, 7⟩ = (true, ⟨5, 0⟩) := by
  have e1 : f32 ((500 : ℚ)) = 500 := by
    simpa using f32_intCast (500) (by norm_num)
  have e2 : f32 ((1000 : ℚ)) = 1000 := by
    simpa using f32_intCast (1000) (by norm_num)
  have e3 : f32 ((1 : ℚ) / 2) = 1 / 2 := by
    have h := fround_eval 23 ((1 : ℚ) / 2) (-1) (8388608) (by norm_num [abs_of_pos, abs_of_neg])
      (by norm_num [abs_of_pos, abs_of_neg]) (round_half_even_down _ (8388608) (by norm_num) (by norm_num))
    unfold f32
    rw [h]
    norm_num
  have e4 : f64 ((1001 : ℚ) / 1000) = 2254051613498933 / 2251799813685248 := by
    have h := fround_eval 52 ((1001 : ℚ) / 1000) (0) (4508103226997866) (by norm_num [abs_of_pos, abs_of_neg])
      (by norm_num [abs_of_pos, abs_of_neg]) (round_half_even_down _ (4508103226997866) (by norm_num) (by norm_num))
    unfold f64
    rw [h]
    norm_num
  have e5 : f64 ((1 : ℚ) / 1000) = 1152921504606847 / 1152921504606846976 := by
    have h := fround_eval 52 ((1 : ℚ) / 1000) (-10) (4611686018427388) (by norm_num [abs_of_pos, abs_of_neg])
      (by norm_num [abs_of_pos, abs_of_neg]) (by rw [round_half_even_up _ (4611686018427387) (by norm_num) (by norm_num)]; norm_num)
    unfold f64
    rw [h]
    norm_num
  have e6 : f32 ((0 : ℚ)) = 0 := by
    simpa using f32_intCast (0) (by norm_num)
  have e7 : f32 ((10 : ℚ)) = 10 := by
    simpa using f32_intCast (10) (by norm_num)
  have e8 : f32 ((5 : ℚ)) = 5 := by
    simpa using f32_intCast (5) (by norm_num)
  have e9 : f32 ((50 : ℚ)) = 50 := by
    simpa using f32_intCast (50) (by norm_num)
  have e10 : f32 ((100 : ℚ)) = 100 := by
    simpa using f32_intCast (100) (by norm_num)
  have s0 : small_point ⟨0, 0⟩ := by norm_num [small_point]
  have s1 : small_point ⟨10, 0⟩ := by norm_num [small_point]
  have s2 : small_point ⟨5, 100⟩ := by norm_num [small_point]
  have s3 : small_point ⟨5, 200⟩ := by norm_num [small_point]
  have r0 : 0 ≤ raw_t (K := ℚ) ⟨0, 0⟩ ⟨10, 0⟩ ⟨5, 100⟩ ⟨5, 200⟩ := by
    norm_num [raw_t, DOT, V2.sub, perpendicular]
  have r1 : raw_t (K := ℚ) ⟨0, 0⟩ ⟨10, 0⟩ ⟨5, 100⟩ ⟨5, 200⟩ ≤ 1 := by
    norm_num [raw_t, DOT, V2.sub, perpendicular]
  refine ⟨⟨⟨s0, s1, s2, s3⟩, by decide, r0, r1⟩,
    (intersect_line_segments_hit_near ⟨0, 0⟩ ⟨10, 0⟩ ⟨5, 100⟩ ⟨5, 200⟩ ⟨7, 7⟩ s0 s1 s2 s3
      (by decide) r0 r1).1, ?_, ?_⟩
  · simp only [intersect_line_segments, v2i_sub, v2i_perpendicular, v2i_dot, i32_sub, i32_to_f32,
      f32_add, f32_mul, f32_div, wrap32]
    norm_num [e1, e2, e3, e4, e5, e6, e7, e8, e9, e10]
  · simp only [intersect_line_segments, v2i_sub, v2i_perpendicular, v2i_dot, i32_sub, i32_to_f32,
      f32_add, f32_mul, f32_div, wrap32]
    norm_num [e1, e2, e3, e4, e5, e6, e7, e8, e9, e10]

/-! ## Closest point on a segment -/

theorem grid_length {α : Type} (f : Nat → Nat → α) (rows cols : Nat) :
    ((List.range rows).flatMap (fun r => (List.range cols).map (f r))).length = rows * cols := by
  induction rows with
  | zero => simp
  | succ n ih =>
    rw [List.range_succ, List.flatMap_append, List.length_append, ih]
    simp [Nat.succ_mul]

theorem grid_getElem {α : Type} (f : Nat → Nat → α) (rows cols r c : Nat)
    (hr : r < rows) (hc : c < cols) :
    ((List.range rows).flatMap (fun r => (List.range cols).map (f r)))[r * cols + c]?
      = some (f r c) := by
  induction rows with
  | zero => omega
  | succ n ih =>
    rw [List.range_succ, List.flatMap_append]
    rcases Nat.lt_succ_iff_lt_or_eq.mp hr with h | h
    · have hlt : r * cols + c < n * cols := by
        have : (r + 1) * cols ≤ n * cols := Nat.mul_le_mul_right cols h
        rw [Nat.succ_mul] at this
        omega
      rw [List.getElem?_append_left (by rw [grid_length]; exact hlt)]
      exact ih h
    · subst h
      rw [List.getElem?_append_right (by rw [grid_length]; omega), grid_length]
      simp [List.getElem?_range hc]

/-- The inner loop started at `w` with `k` iterations left and more than `k`
units of fuel appends the `k` tiles at `w, w + width, ...` and returns. -/
theorem rect_split_cols_run (src : Rect) (width height h : Int) (hw : 0 < width) :
    ∀ (k fuel : Nat) (w : Int) (rects : List Rect), k < fuel →
      (∀ j : Nat, j < k → w + j * width < src.right) → src.right ≤ w + k * width →
      rect_split_cols src width height h fuel w rects =
        .ok (rects ++ (List.range k).map
          (fun j : Nat => rect_split_tile src width height h (w + j * width))) := by
  intro k
  induction k with
  | zero =>
    intro fuel w rects hf _ hstop
    obtain ⟨n, rfl⟩ : ∃ n, fuel = n + 1 := ⟨fuel - 1, by omega⟩
    have : ¬ w < src.right := by simpa using hstop
    simp [rect_split_cols, this]
  | succ k ih =>
    intro fuel w rects hf hrun hstop
    obtain ⟨n, rfl⟩ : ∃ n, fuel = n + 1 := ⟨fuel - 1, by omega⟩
    have h0 : w < src.right := by simpa using hrun 0 (Nat.succ_pos k)
    have hrun2 : ∀ j : Nat, j < k → (w + width) + j * width < src.right := by
      intro j hj
      have := hrun (j + 1) (by omega)
      push_cast at this
      linarith
    have hstop2 : src.right ≤ (w + width) + k * width := by
      push_cast at hstop
      linarith
    rw [rect_split_cols, if_pos h0, ih n (w + width) _ (by omega) hrun2 hstop2]
    have e : ∀ j : Nat, w + width + (j : Int) * width = w + ((j + 1 : Nat) : Int) * width := by
      intro j
      push_cast
      ring
    rw [List.range_succ_eq_map, List.map_cons, List.map_map, List.append_assoc]
    simp only [Function.comp_def, Nat.succ_eq_add_one, e, List.singleton_append, Nat.cast_zero,
      zero_mul, add_zero]

/-- The outer loop started at `h` with `k` rows left and more than `k` units of
fuel appends `k` rows of `kc` tiles each and returns. -/
theorem rect_split_rows_run (src : Rect) (width height : Int) (hw : 0 < width)
    (fuel kc : Nat) (hkc : kc < fuel)
    (hcrun : ∀ j : Nat, j < kc → src.left + j * width < src.right)
    (hcstop : src.right ≤ src.left + kc * width) :
    ∀ (k n : Nat) (h : Int) (rects : List Rect), k < n →
      (∀ j : Nat, j < k → h + j * height < src.bottom) → src.bottom ≤ h + k * height →
      rect_split_rows src width height fuel n h rects =
        .ok (rects ++ (List.range k).flatMap (fun r : Nat => (List.range kc).map
          (fun c : Nat => rect_split_tile src width height (h + r * height)
            (src.left + c * width)))) := by
  intro k
  induction k with
  | zero =>
    intro n h rects hf _ hstop
    obtain ⟨m, rfl⟩ : ∃ m, n = m + 1 := ⟨n - 1, by omega⟩
    have : ¬ h < src.bottom := by simpa using hstop
    simp [rect_split_rows, this]
  | succ k ih =>
    intro n h rects hf hrun hstop
    obtain ⟨m, rfl⟩ : ∃ m, n = m + 1 := ⟨n - 1, by omega⟩
    have h0 : h < src.bottom := by simpa using hrun 0 (Nat.succ_pos k)
    have hrun2 : ∀ j : Nat, j < k → (h + height) + j * height < src.bottom := by
      intro j hj
      have := hrun (j + 1) (by omega)
      push_cast at this
      linarith
    have hstop2 : src.bottom ≤ (h + height) + k * height := by
      push_cast at hstop
      linarith
    rw [rect_split_rows, if_pos h0,
      rect_split_cols_run src width height h hw kc fuel src.left rects hkc hcrun hcstop]
    simp only
    rw [ih m (h + height) _ (by omega) hrun2 hstop2]
    have e : ∀ j : Nat, h + height + (j : Int) * height = h + ((j + 1 : Nat) : Int) * height := by
      intro j
      push_cast
      ring
    rw [List.range_succ_eq_map, List.flatMap_cons, List.flatMap_map, List.append_assoc]
    simp only [Function.comp_def, Nat.succ_eq_add_one, e, Nat.cast_zero, zero_mul, add_zero]

/-! ## Tiling: counts -/

theorem ceilDiv_spec (n d : Int) (hd : 0 < d) :
    n ≤ ceilDiv n d * d ∧ (ceilDiv n d - 1) * d < n := by
  have h1 := Int.ediv_add_emod (n + d - 1) d
  have h2 := Int.emod_nonneg (n + d - 1) (ne_of_gt hd)
  have h3 := Int.emod_lt_of_pos (n + d - 1) hd
  unfold ceilDiv
  constructor <;> nlinarith

theorem ceilDiv_pos (n d : Int) (hd : 0 < d) (hn : 0 < n) : 0 < ceilDiv n d := by
  have h := (ceilDiv_spec n d hd).1
  by_contra hc
  push_neg at hc
  nlinarith

theorem ceilDiv_le_tdiv_succ (n d : Int) (hd : 0 < d) (hn : 0 ≤ n) :
    ceilDiv n d ≤ n.tdiv d + 1 := by
  rw [Int.tdiv_eq_ediv hn hd.le]
  have h1 := Int.ediv_add_emod n d
  have h3 := Int.emod_lt_of_pos n hd
  have h4 := (ceilDiv_spec n d hd).2
  have h5 : (ceilDiv n d - 1) * d < (n / d + 1) * d := by nlinarith
  have h6 := lt_of_mul_lt_mul_right h5 hd.le
  omega

theorem tdiv_pos_of_le (n d : Int) (hd : 0 < d) (hn : d ≤ n) : 0 < n.tdiv d := by
  rw [Int.tdiv_eq_ediv (by omega) hd.le]
  have h1 := Int.ediv_add_emod n d
  have h3 := Int.emod_lt_of_pos n hd
  by_contra hc
  push_neg at hc
  nlinarith

/-- Every column index below `gridCols` starts left of `src.right`, and the
column after the last one starts at or beyond it. -/
theorem gridCols_spec (src : Rect) (width : Int) (hw : 0 < width)
    (hW : 0 ≤ src.right - src.left) :
    (∀ j : Nat, j < gridCols src width → src.left + j * width < src.right) ∧
    src.right ≤ src.left + (gridCols src width : Nat) * width := by
  obtain ⟨h1, h2⟩ := ceilDiv_spec (src.right - src.left) width hw
  have hq : 0 ≤ ceilDiv (src.right - src.left) width := by
    by_contra hc
    push_neg at hc
    nlinarith
  have hc : ((gridCols src width : Nat) : Int) = ceilDiv (src.right - src.left) width := by
    unfold gridCols
    exact Int.toNat_of_nonneg hq
  constructor
  · intro j hj
    have hj2 : (j : Int) + 1 ≤ ceilDiv (src.right - src.left) width := by
      rw [← hc]; exact_mod_cast hj
    nlinarith
  · rw [hc]; linarith

/-- The same for rows. -/
theorem gridRows_spec (src : Rect) (height : Int) (hh : 0 < height)
    (hH : 0 ≤ src.bottom - src.top) :
    (∀ j : Nat, j < gridRows src height → src.top + j * height < src.bottom) ∧
    src.bottom ≤ src.top + (gridRows src height : Nat) * height := by
  obtain ⟨h1, h2⟩ := ceilDiv_spec (src.bottom - src.top) height hh
  have hq : 0 ≤ ceilDiv (src.bottom - src.top) height := by
    by_contra hc
    push_neg at hc
    nlinarith
  have hc : ((gridRows src height : Nat) : Int) = ceilDiv (src.bottom - src.top) height := by
    unfold gridRows
    exact Int.toNat_of_nonneg hq
  constructor
  · intro j hj
    have hj2 : (j : Int) + 1 ≤ ceilDiv (src.bottom - src.top) height := by
      rw [← hc]; exact_mod_cast hj
    nlinarith
  · rw [hc]; linarith

theorem rect_split_tile_eq_gridTile (src : Rect) (width height : Int) (r c : Nat) :
    rect_split_tile src width height (src.top + r * height) (src.left + c * width)
      = gridTile src width height r c := by
  simp only [rect_split_tile, gridTile]
  have e1 : src.left + (c : Int) * width + width = src.left + ((c : Int) + 1) * width := by ring
  have e2 : src.top + (r : Int) * height + height = src.top + ((r : Int) + 1) * height := by ring
  rw [e1, e2]

theorem gridTiles_length (src : Rect) (width height : Int) :
    (gridTiles src width height).length = gridRows src height * gridCols src width := by
  unfold gridTiles
  exact grid_length _ _ _

/-- With tiles that fit (`0 < width ≤ W`, `0 < height ≤ H`) and fuel above the
number of rows and of columns, `rect_split` returns the row-major grid and its
length; the internal assertion holds. -/
theorem rect_split_eq_grid (fuel : Nat) (out_rects : List Rect) (src : Rect)
    (width height : Int)
    (hw : 0 < width) (hwW : width ≤ src.right - src.left)
    (hh : 0 < height) (hhH : height ≤ src.bottom - src.top)
    (hfc : gridCols src width < fuel) (hfr : gridRows src height < fuel) :
    rect_split fuel out_rects src width height =
      .ok (((gridRows src height * gridCols src width : Nat) : Int),
           gridTiles src width height) := by
  obtain ⟨c1, c2⟩ := gridCols_spec src width hw (by omega)
  obtain ⟨r1, r2⟩ := gridRows_spec src height hh (by omega)
  have hrun := rect_split_rows_run src width height hw fuel (gridCols src width) hfc c1 c2
    (gridRows src height) fuel src.top [] hfr r1 r2
  have hgrid : (List.range (gridRows src height)).flatMap (fun r : Nat =>
      (List.range (gridCols src width)).map (fun c : Nat =>
        rect_split_tile src width height (src.top + r * height) (src.left + c * width)))
      = gridTiles src width height := by
    simp only [rect_split_tile_eq_gridTile]
    rfl
  rw [hgrid, List.nil_append] at hrun
  have hnw := tdiv_pos_of_le (src.right - src.left) width hw hwW
  have hnh := tdiv_pos_of_le (src.bottom - src.top) height hh hhH
  have hcw := ceilDiv_le_tdiv_succ (src.right - src.left) width hw (by omega)
  have hch := ceilDiv_le_tdiv_succ (src.bottom - src.top) height hh (by omega)
  have hcq : ((gridCols src width : Nat) : Int) ≤ (src.right - src.left).tdiv width + 1 := by
    unfold gridCols
    rw [Int.toNat_of_nonneg (ceilDiv_pos _ _ hw (by omega)).le]
    exact hcw
  have hrq : ((gridRows src height : Nat) : Int) ≤ (src.bottom - src.top).tdiv height + 1 := by
    unfold gridRows
    rw [Int.toNat_of_nonneg (ceilDiv_pos _ _ hh (by omega)).le]
    exact hch
  have hlen : ((gridTiles src width height).length : Int) ≤
      ((src.right - src.left).tdiv width + 1) * ((src.bottom - src.top).tdiv height + 1) := by
    rw [gridTiles_length]
    push_cast
    have := Int.natCast_nonneg (gridCols src width)
    have := Int.natCast_nonneg (gridRows src height)
    nlinarith
  rw [gridTiles_length] at hlen
  unfold rect_split
  rw [if_neg (by omega), if_neg (by omega)]
  simp only [hrun, gridTiles_length]
  rw [if_pos hlen]

/-! ## Tiling: areas -/

theorem list_range_sum (g : Nat → Int) (n : Nat) :
    ((List.range n).map g).sum = ∑ i ∈ Finset.range n, g i := by
  induction n with
  | zero => simp
  | succ n ih => rw [List.sum_range_succ, Finset.sum_range_succ, ih]

theorem grid_sum (f : Nat → Nat → Int) (rows cols : Nat) :
    ((List.range rows).flatMap (fun r => (List.range cols).map (f r))).sum
      = ∑ r ∈ Finset.range rows, ∑ c ∈ Finset.range cols, f r c := by
  induction rows with
  | zero => simp
  | succ n ih =>
    rw [List.range_succ, List.flatMap_append, List.sum_append, ih, Finset.sum_range_succ]
    simp [list_range_sum]

/-- Telescoping: clipped steps of size `d` from `lo` add up to `hi - lo` once
the last step reaches `hi`. -/
theorem clipped_steps_sum (lo hi d : Int) (n : Nat) (hlo : lo ≤ hi)
    (hrun : ∀ j : Nat, j < n → lo + j * d < hi) (hstop : hi ≤ lo + (n : Nat) * d) :
    ∑ j ∈ Finset.range n, (min hi (lo + ((j : Int) + 1) * d) - (lo + (j : Int) * d)) = hi - lo := by
  have e : ∀ j ∈ Finset.range n,
      (min hi (lo + ((j : Int) + 1) * d) - (lo + (j : Int) * d))
        = (fun i : Nat => min hi (lo + (i : Int) * d)) (j + 1)
          - (fun i : Nat => min hi (lo + (i : Int) * d)) j := by
    intro j hj
    have hj2 := hrun j (Finset.mem_range.mp hj)
    simp only
    rw [min_eq_right (a := hi) (b := lo + (j : Int) * d) hj2.le]
    push_cast
    rfl
  rw [Finset.sum_congr rfl e]
  have tel := Finset.sum_range_sub (fun i : Nat => min hi (lo + (i : Int) * d)) n
  simp only at tel
  rw [tel]
  simp only [Nat.cast_zero, zero_mul, add_zero]
  rw [min_eq_left hstop, min_eq_right hlo]

/-- The areas of the grid tiles add up to the area of the source rectangle. -/
theorem gridTiles_area_sum (src : Rect) (width height : Int)
    (hw : 0 < width) (hW : 0 ≤ src.right - src.left)
    (hh : 0 < height) (hH : 0 ≤ src.bottom - src.top) :
    ((gridTiles src width height).map rect_area).sum = rect_area src := by
  obtain ⟨c1, c2⟩ := gridCols_spec src width hw hW
  obtain ⟨r1, r2⟩ := gridRows_spec src height hh hH
  have hc := clipped_steps_sum src.left src.right width (gridCols src width) (by omega) c1 c2
  have hr := clipped_steps_sum src.top src.bottom height (gridRows src height) (by omega) r1 r2
  unfold gridTiles
  rw [List.map_flatMap]
  simp only [List.map_map, Function.comp_def]
  rw [grid_sum (fun r c => rect_area (gridTile src width height r c))]
  simp only [rect_area, gridTile]
  rw [Finset.sum_comm, ← Finset.sum_mul_sum, hc, hr]

/-- C1: for a valid `src` and tile sizes with `0 < width ≤ W`, `0 < height ≤ H`
(and fuel above the numbers of rows and columns), `rect_split` returns a list
of rectangles whose `rect_area` values add up to exactly `rect_area src`. -/
theorem rect_split_area_sum (fuel : Nat) (out_rects : List Rect) (src : Rect)
    (width height : Int)
    (hw : 0 < width) (hwW : width ≤ src.right - src.left)
    (hh : 0 < height) (hhH : height ≤ src.bottom - src.top)
    (hfc : gridCols src width < fuel) (hfr : gridRows src height < fuel) :
    ∃ rects : List Rect,
      rect_split fuel out_rects src width height = .ok ((rects.length : Int), rects) ∧
      (rects.map rect_area).sum = rect_area src := by
  refine ⟨gridTiles src width height, ?_, ?_⟩
  · rw [rect_split_eq_grid fuel out_rects src width height hw hwW hh hhH hfc hfr,
      gridTiles_length]
  · exact gridTiles_area_sum src width height hw (by omega) hh (by omega)

/-- Witness for C1: `rect_from_xywh 0 0 100 100` with 30 by 30 tiles gives 16
tiles whose areas add up to 10000. -/
theorem rect_split_area_sum_witness :
    ((0 : Int) < 30 ∧ (30 : Int) ≤ (rect_from_xywh 0 0 100 100).right - (rect_from_xywh 0 0 100 100).left ∧
      (30 : Int) ≤ (rect_from_xywh 0 0 100 100).bottom - (rect_from_xywh 0 0 100 100).top ∧
      gridCols (rect_from_xywh 0 0 100 100) 30 < 5 ∧ gridRows (rect_from_xywh 0 0 100 100) 30 < 5) ∧
    (∃ rects : List Rect,
      rect_split 5 [] (rect_from_xywh 0 0 100 100) 30 30 = .ok ((rects.length : Int), rects) ∧
      (rects.map rect_area).sum = rect_area (rect_from_xywh 0 0 100 100)) ∧
    (∃ rects : List Rect,
      rect_split 5 [] (rect_from_xywh 0 0 100 100) 30 30 = .ok (16, rects) ∧
      rects.length = 16 ∧ (rects.map rect_area).sum = 10000) :=
  ⟨by decide,
   rect_split_area_sum 5 [] (rect_from_xywh 0 0 100 100) 30 30
     (by decide) (by decide) (by decide) (by decide) (by decide) (by decide),
   ⟨gridTiles (rect_from_xywh 0 0 100 100) 30 30, rfl, by decide, by decide⟩⟩

/-- C2: for a valid `src` and tile sizes with `0 < width ≤ W`, `0 < height ≤ H`
(and fuel above the numbers of rows and columns), `rect_split` returns
`rows * cols` with `cols = ceil(W / width)`, `rows = ceil(H / height)`, the
output has that length, and the element at index `r * cols + c` is the grid
tile `{left + c * width, top + r * height, min right (left + (c+1) * width),
min bottom (top + (r+1) * height)}`; every such tile is at most `width` by
`height` and lies within `src`. -/
theorem rect_split_row_major (fuel : Nat) (out_rects : List Rect) (src : Rect)
    (width height : Int)
    (hw : 0 < width) (hwW : width ≤ src.right - src.left)
    (hh : 0 < height) (hhH : height ≤ src.bottom - src.top)
    (hfc : gridCols src width < fuel) (hfr : gridRows src height < fuel) :
    ∃ rects : List Rect,
      rect_split fuel out_rects src width height =
        .ok (ceilDiv (src.bottom - src.top) height * ceilDiv (src.right - src.left) width,
             rects) ∧
      ((gridCols src width : Nat) : Int) = ceilDiv (src.right - src.left) width ∧
      ((gridRows src height : Nat) : Int) = ceilDiv (src.bottom - src.top) height ∧
      rects.length = gridRows src height * gridCols src width ∧
      ∀ r c : Nat, r < gridRows src height → c < gridCols src width →
        rects[r * gridCols src width + c]? = some (gridTile src width height r c) ∧
        (gridTile src width height r c).right - (gridTile src width height r c).left ≤ width ∧
        (gridTile src width height r c).bottom - (gridTile src width height r c).top ≤ height ∧
        is_rect_within_rect (gridTile src width height r c) src = true := by
  have hcq : ((gridCols src width : Nat) : Int) = ceilDiv (src.right - src.left) width := by
    unfold gridCols
    exact Int.toNat_of_nonneg (ceilDiv_pos _ _ hw (by omega)).le
  have hrq : ((gridRows src height : Nat) : Int) = ceilDiv (src.bottom - src.top) height := by
    unfold gridRows
    exact Int.toNat_of_nonneg (ceilDiv_pos _ _ hh (by omega)).le
  refine ⟨gridTiles src width height, ?_, hcq, hrq, gridTiles_length src width height, ?_⟩
  · rw [rect_split_eq_grid fuel out_rects src width height hw hwW hh hhH hfc hfr]
    push_cast
    rw [hcq, hrq]
  · intro r c hr hc
    obtain ⟨c1, _⟩ := gridCols_spec src width hw (by omega)
    obtain ⟨r1, _⟩ := gridRows_spec src height hh (by omega)
    have hc1 := c1 c hc
    have hr1 := r1 r hr
    have hcw : 0 ≤ (c : Int) * width := mul_nonneg (Int.natCast_nonneg c) hw.le
    have hrh : 0 ≤ (r : Int) * height := mul_nonneg (Int.natCast_nonneg r) hh.le
    have ec : src.left + ((c : Int) + 1) * width = src.left + (c : Int) * width + width := by ring
    have er : src.top + ((r : Int) + 1) * height = src.top + (r : Int) * height + height := by
      ring
    refine ⟨grid_getElem _ _ _ r c hr hc, ?_, ?_, ?_⟩
    · simp only [gridTile, ec]
      omega
    · simp only [gridTile, er]
      omega
    · simp only [is_rect_within_rect, gridTile, ec, er]
      rw [if_neg]
      omega

/-- Witness for C2: `rect_from_xywh 0 0 100 100` with 30 by 30 tiles; the tile
in row 3, column 1 (index 13) is `{left 30, top 90, right 60, bottom 100}`. -/
theorem rect_split_row_major_witness :
    ((0 : Int) < 30 ∧ (30 : Int) ≤ (rect_from_xywh 0 0 100 100).right - (rect_from_xywh 0 0 100 100).left ∧
      (30 : Int) ≤ (rect_from_xywh 0 0 100 100).bottom - (rect_from_xywh 0 0 100 100).top ∧
      gridCols (rect_from_xywh 0 0 100 100) 30 < 5 ∧ gridRows (rect_from_xywh 0 0 100 100) 30 < 5) ∧
    (∃ rects : List Rect,
      rect_split 5 [] (rect_from_xywh 0 0 100 100) 30 30 = .ok (4 * 4, rects) ∧
      rects[3 * 4 + 1]? = some ⟨30, 90, 60, 100⟩) :=
  ⟨by decide,
   (rect_split_row_major 5 [] (rect_from_xywh 0 0 100 100) 30 30
     (by decide) (by decide) (by decide) (by decide) (by decide) (by decide)).elim
     (fun rects h => ⟨rects, h.1, (h.2.2.2.2 3 1 (by decide) (by decide)).1⟩)⟩

/-! ## Stretching and clipping -/

/-- C12 fails on the code: the horizontal stroke box `{left 0, top 5, right 10,
bottom 5}` is valid, and `rect_stretch` with `min_dimension = 3` moves `top` and
`bottom` by `3 / 2 = 1` each, so the stretched height is `2 < 3`. -/
theorem rect_stretch_odd_min_dimension_short :
    rect_is_valid ⟨0, 5, 10, 5⟩ = true ∧
    rect_stretch ⟨0, 5, 10, 5⟩ 3 = ⟨0, 4, 10, 6⟩ ∧
    ¬ ((rect_stretch ⟨0, 5, 10, 5⟩ 3).bottom - (rect_stretch ⟨0, 5, 10, 5⟩ 3).top ≥ 3) := by
  decide

/-- What `rect_stretch` does guarantee for a valid rectangle and
`0 ≤ width`: each extent is at least `width - 1`, it is at least `width` when
`width` is even or the extent was positive, and an axis whose extent was
already at least `width` is unchanged. -/
theorem rect_stretch_extent (rect : Rect) (width : Int)
    (hv : rect.left ≤ rect.right ∧ rect.top ≤ rect.bottom) (hw : 0 ≤ width) :
    ((rect_stretch rect width).right - (rect_stretch rect width).left ≥ width - 1 ∧
     (rect_stretch rect width).bottom - (rect_stretch rect width).top ≥ width - 1) ∧
    ((width % 2 = 0 ∨ rect.left < rect.right) →
      (rect_stretch rect width).right - (rect_stretch rect width).left ≥ width) ∧
    ((width % 2 = 0 ∨ rect.top < rect.bottom) →
      (rect_stretch rect width).bottom - (rect_stretch rect width).top ≥ width) ∧
    (rect.right - rect.left ≥ width →
      (rect_stretch rect width).left = rect.left ∧
      (rect_stretch rect width).right = rect.right) ∧
    (rect.bottom - rect.top ≥ width →
      (rect_stretch rect width).top = rect.top ∧
      (rect_stretch rect width).bottom = rect.bottom) := by
  have e : width.tdiv 2 = width / 2 := Int.tdiv_eq_ediv hw (by decide)
  obtain ⟨hx, hy⟩ := hv
  simp only [rect_stretch, e]
  refine ⟨⟨?_, ?_⟩, ?_, ?_, ?_, ?_⟩
  · split_ifs <;> (try dsimp only at *) <;> omega
  · split_ifs <;> (try dsimp only at *) <;> omega
  · intro h; split_ifs <;> (try dsimp only at *) <;> omega
  · intro h; split_ifs <;> (try dsimp only at *) <;> omega
  · intro h; split_ifs <;> (try dsimp only at *) <;> constructor <;> omega
  · intro h; split_ifs <;> (try dsimp only at *) <;> constructor <;> omega

/-- C13, as stated, fails: the rectangle `{left 20, top 0, right 30, bottom 5}`
clipped to a `10 × 10` screen keeps `left = 20`, which exceeds `w = 10`. -/
theorem rect_clip_to_screen_left_beyond_width :
    rect_clip_to_screen ⟨20, 0, 30, 5⟩ ⟨10, 10⟩ = ⟨20, 0, 10, 5⟩ ∧
    ¬ ((rect_clip_to_screen ⟨20, 0, 30, 5⟩ ⟨10, 10⟩).left ≤ (⟨10, 10⟩ : v2i).x) := by
  decide

/-- C13 (amended): for a screen with `w ≥ 0`, `h ≥ 0`, the clipped rectangle
has `0 ≤ left`, `right ≤ w`, `0 ≤ top`, `bottom ≤ h`; the other four bounds
hold exactly when the input edge already satisfies them: `left ≤ w` iff
`limits.left ≤ w`, `0 ≤ right` iff `0 ≤ limits.right`, `top ≤ h` iff
`limits.top ≤ h`, `0 ≤ bottom` iff `0 ≤ limits.bottom`. -/
theorem rect_clip_to_screen_bounds (limits : Rect) (screen_size : v2i)
    (hw : 0 ≤ screen_size.x) (hh : 0 ≤ screen_size.y) :
    (0 ≤ (rect_clip_to_screen limits screen_size).left ∧
     (rect_clip_to_screen limits screen_size).right ≤ screen_size.x ∧
     0 ≤ (rect_clip_to_screen limits screen_size).top ∧
     (rect_clip_to_screen limits screen_size).bottom ≤ screen_size.y) ∧
    ((rect_clip_to_screen limits screen_size).left ≤ screen_size.x ↔
      limits.left ≤ screen_size.x) ∧
    (0 ≤ (rect_clip_to_screen limits screen_size).right ↔ 0 ≤ limits.right) ∧
    ((rect_clip_to_screen limits screen_size).top ≤ screen_size.y ↔
      limits.top ≤ screen_size.y) ∧
    (0 ≤ (rect_clip_to_screen limits screen_size).bottom ↔ 0 ≤ limits.bottom) := by
  simp only [rect_clip_to_screen]
  refine ⟨⟨?_, ?_, ?_, ?_⟩, ?_, ?_, ?_, ?_⟩
  · split_ifs <;> (try dsimp only at *) <;> omega
  · split_ifs <;> (try dsimp only at *) <;> omega
  · split_ifs <;> (try dsimp only at *) <;> omega
  · split_ifs <;> (try dsimp only at *) <;> omega
  · split_ifs <;> (try dsimp only at *) <;> omega
  · split_ifs <;> (try dsimp only at *) <;> omega
  · split_ifs <;> (try dsimp only at *) <;> omega
  · split_ifs <;> (try dsimp only at *) <;> omega

/-- Witness for C13 (amended): a rectangle overhanging a `10 × 10` screen on
all four sides is clipped to the screen. -/
theorem rect_clip_to_screen_bounds_witness :
    ((0 : Int) ≤ (⟨10, 10⟩ : v2i).x ∧ (0 : Int) ≤ (⟨10, 10⟩ : v2i).y) ∧
    rect_clip_to_screen ⟨-3, -4, 15, 12⟩ ⟨10, 10⟩ = ⟨0, 0, 10, 10⟩ ∧
    (0 ≤ (rect_clip_to_screen ⟨-3, -4, 15, 12⟩ ⟨10, 10⟩).left ∧
     (rect_clip_to_screen ⟨-3, -4, 15, 12⟩ ⟨10, 10⟩).right ≤ (⟨10, 10⟩ : v2i).x ∧
     0 ≤ (rect_clip_to_screen ⟨-3, -4, 15, 12⟩ ⟨10, 10⟩).top ∧
     (rect_clip_to_screen ⟨-3, -4, 15, 12⟩ ⟨10, 10⟩).bottom ≤ (⟨10, 10⟩ : v2i).y) :=
  ⟨by decide, by decide,
   (rect_clip_to_screen_bounds ⟨-3, -4, 15, 12⟩ ⟨10, 10⟩ (by decide) (by decide)).1⟩

/-! ## Rectangle containment and intersection, continued -/

/-- C15, as stated, fails: with `outer = {0, 0, 10, 10}` passed first and
`inner = {2, 2, 5, 5}` passed second the code returns false although `inner`
lies within `outer` on all four edges. -/
theorem is_rect_within_rect_outer_first_false :
    is_rect_within_rect ⟨0, 0, 10, 10⟩ ⟨2, 2, 5, 5⟩ = false ∧
    ((⟨0, 0, 10, 10⟩ : Rect).left ≤ (⟨2, 2, 5, 5⟩ : Rect).left ∧
     (⟨2, 2, 5, 5⟩ : Rect).right ≤ (⟨0, 0, 10, 10⟩ : Rect).right ∧
     (⟨0, 0, 10, 10⟩ : Rect).top ≤ (⟨2, 2, 5, 5⟩ : Rect).top ∧
     (⟨2, 2, 5, 5⟩ : Rect).bottom ≤ (⟨0, 0, 10, 10⟩ : Rect).bottom) := by
  decide

/-- C15 (amended): `is_rect_within_rect inner outer`, the inner rectangle
passed first and the outer second, is true iff `inner` is contained in `outer`
on all four edges inclusive. -/
theorem is_rect_within_rect_inner_first (inner outer : Rect) :
    is_rect_within_rect inner outer = true ↔
      (outer.left ≤ inner.left ∧ inner.right ≤ outer.right ∧
       outer.top ≤ inner.top ∧ inner.bottom ≤ outer.bottom) := by
  simp only [is_rect_within_rect]
  split_ifs with h
  · simp only [Bool.false_eq_true, false_iff]
    omega
  · simp only [true_iff]
    omega

/-- C17: the area of `rect_intersect a b` is `0` when the rectangles do not
overlap (`max lefts ≥ min rights` or `max tops ≥ min bottoms`) and
`(min rights - max lefts) * (min bottoms - max tops)` otherwise. -/
theorem rect_intersect_area (a b : Rect) :
    rect_area (rect_intersect a b) =
      if max a.left b.left ≥ min a.right b.right ∨ max a.top b.top ≥ min a.bottom b.bottom
      then 0
      else (min a.right b.right - max a.left b.left) *
           (min a.bottom b.bottom - max a.top b.top) := by
  simp only [rect_area, rect_intersect]
  by_cases hx : max a.left b.left ≥ min a.right b.right
  · rw [if_pos hx, if_pos (Or.inl hx), sub_self, zero_mul]
  · by_cases hy : max a.top b.top ≥ min a.bottom b.bottom
    · rw [if_pos (Or.inr hy), if_pos (show min a.bottom b.bottom ≤ max a.top b.top from hy),
        sub_self, mul_zero]
    · rw [if_neg hx, if_neg (show ¬ min a.bottom b.bottom ≤ max a.top b.top from hy),
        if_neg (not_or.mpr ⟨hx, hy⟩)]

/-- C18: a point is inside `rect_intersect a b` (half-open) iff it is inside
`a` and inside `b`, for arbitrary rectangles. -/
theorem is_inside_rect_intersect (a b : Rect) (p : v2i) :
    is_inside_rect (rect_intersect a b) p = true ↔
      (is_inside_rect a p = true ∧ is_inside_rect b p = true) := by
  simp only [is_inside_rect, rect_intersect, Bool.and_eq_true, decide_eq_true_eq, ge_iff_le]
  split_ifs <;> omega

/-! ## Tiling: degenerate input and totality -/

/-- A non-negative integer below a positive divisor has C quotient `0`. -/
theorem tdiv_eq_zero_of_lt (n d : Int) (hn : 0 ≤ n) (hd : n < d) : n.tdiv d = 0 := by
  rw [Int.tdiv_eq_ediv hn (by omega)]
  exact Int.ediv_eq_zero_of_lt hn hd

/-- When one of the two quotients is `0` the early `return 0` is taken and
`out_rects` is not assigned. -/
theorem rect_split_of_zero_quotient (fuel : Nat) (out_rects : List Rect) (src : Rect)
    (width height : Int) (hw : width ≠ 0) (hh : height ≠ 0)
    (hz : (src.right - src.left).tdiv width = 0 ∨ (src.bottom - src.top).tdiv height = 0) :
    rect_split fuel out_rects src width height = .ok (0, out_rects) := by
  unfold rect_split
  rw [if_neg (by omega)]
  simp only [hz, if_true]

/-- C16, as stated, fails: a `10 × 10` source with `30 × 30` tiles returns
count `0`, and an output sequence that held one rectangle before the call
still holds it afterwards. -/
theorem rect_split_degenerate_keeps_out_rects :
    rect_split 5 [⟨0, 0, 1, 1⟩] ⟨0, 0, 10, 10⟩ 30 30 = .ok (0, [⟨0, 0, 1, 1⟩]) ∧
    ([⟨0, 0, 1, 1⟩] : List Rect) ≠ [] :=
  ⟨rfl, by decide⟩

/-- C16 (amended): for a valid `src` and positive tile sizes, if the source is
narrower than one tile or lower than one tile, `rect_split` returns count `0`
and leaves `out_rects` as it was before the call; the return is a normal one
and needs no fuel. -/
theorem rect_split_degenerate (fuel : Nat) (out_rects : List Rect) (src : Rect)
    (width height : Int)
    (hv : src.left ≤ src.right ∧ src.top ≤ src.bottom)
    (hw : 0 < width) (hh : 0 < height)
    (hsmall : src.right - src.left < width ∨ src.bottom - src.top < height) :
    rect_split fuel out_rects src width height = .ok (0, out_rects) := by
  obtain ⟨hx, hy⟩ := hv
  apply rect_split_of_zero_quotient fuel out_rects src width height (ne_of_gt hw) (ne_of_gt hh)
  rcases hsmall with h | h
  · left
    exact tdiv_eq_zero_of_lt _ _ (by omega) h
  · right
    exact tdiv_eq_zero_of_lt _ _ (by omega) h

/-- Witness for C16 (amended): a `10 × 10` source with `30 × 30` tiles. -/
theorem rect_split_degenerate_witness :
    (((⟨0, 0, 10, 10⟩ : Rect).left ≤ (⟨0, 0, 10, 10⟩ : Rect).right ∧
      (⟨0, 0, 10, 10⟩ : Rect).top ≤ (⟨0, 0, 10, 10⟩ : Rect).bottom) ∧
     (0 : Int) < 30 ∧
     ((⟨0, 0, 10, 10⟩ : Rect).right - (⟨0, 0, 10, 10⟩ : Rect).left < 30 ∨
      (⟨0, 0, 10, 10⟩ : Rect).bottom - (⟨0, 0, 10, 10⟩ : Rect).top < 30)) ∧
    rect_split 0 [] ⟨0, 0, 10, 10⟩ 30 30 = .ok (0, []) :=
  ⟨by decide,
   rect_split_degenerate 0 [] ⟨0, 0, 10, 10⟩ 30 30 (by decide) (by decide) (by decide)
     (by decide)⟩

/-- C20: for a valid `src` and positive tile sizes (and fuel above the numbers
of rows and columns) `rect_split` returns normally: no division by zero, both
loops end, and the assertion holds; the returned count `n` satisfies
`0 ≤ n ≤ (n_width + 1) * (n_height + 1)`, and when the loops run it is the
number of rectangles pushed. -/
theorem rect_split_total (fuel : Nat) (out_rects : List Rect) (src : Rect)
    (width height : Int)
    (hv : src.left ≤ src.right ∧ src.top ≤ src.bottom)
    (hw : 0 < width) (hh : 0 < height)
    (hfc : gridCols src width < fuel) (hfr : gridRows src height < fuel) :
    ∃ (n : Int) (rects : List Rect),
      rect_split fuel out_rects src width height = .ok (n, rects) ∧
      0 ≤ n ∧
      n ≤ ((src.right - src.left).tdiv width + 1) * ((src.bottom - src.top).tdiv height + 1) ∧
      (width ≤ src.right - src.left → height ≤ src.bottom - src.top →
        n = (rects.length : Int)) := by
  obtain ⟨hx, hy⟩ := hv
  have hnw : 0 ≤ (src.right - src.left).tdiv width := by
    rw [Int.tdiv_eq_ediv (by omega) hw.le]
    exact Int.ediv_nonneg (by omega) hw.le
  have hnh : 0 ≤ (src.bottom - src.top).tdiv height := by
    rw [Int.tdiv_eq_ediv (by omega) hh.le]
    exact Int.ediv_nonneg (by omega) hh.le
  by_cases hsmall : src.right - src.left < width ∨ src.bottom - src.top < height
  · have hz : (src.right - src.left).tdiv width = 0 ∨
        (src.bottom - src.top).tdiv height = 0 := by
      rcases hsmall with h | h
      · left
        exact tdiv_eq_zero_of_lt _ _ (by omega) h
      · right
        exact tdiv_eq_zero_of_lt _ _ (by omega) h
    refine ⟨0, out_rects,
      rect_split_of_zero_quotient fuel out_rects src width height (ne_of_gt hw) (ne_of_gt hh) hz,
      le_refl 0, ?_, ?_⟩
    · positivity
    · intro h1 h2
      omega
  · have hwW : width ≤ src.right - src.left := by omega
    have hhH : height ≤ src.bottom - src.top := by omega
    have hcw := ceilDiv_le_tdiv_succ (src.right - src.left) width hw (by omega)
    have hch := ceilDiv_le_tdiv_succ (src.bottom - src.top) height hh (by omega)
    have hcq : ((gridCols src width : Nat) : Int) ≤ (src.right - src.left).tdiv width + 1 := by
      unfold gridCols
      rw [Int.toNat_of_nonneg (ceilDiv_pos _ _ hw (by omega)).le]
      exact hcw
    have hrq : ((gridRows src height : Nat) : Int) ≤ (src.bottom - src.top).tdiv height + 1 := by
      unfold gridRows
      rw [Int.toNat_of_nonneg (ceilDiv_pos _ _ hh (by omega)).le]
      exact hch
    refine ⟨((gridRows src height * gridCols src width : Nat) : Int), gridTiles src width height,
      rect_split_eq_grid fuel out_rects src width height hw hwW hh hhH hfc hfr,
      Int.natCast_nonneg _, ?_, ?_⟩
    · push_cast
      have := Int.natCast_nonneg (gridCols src width)
      have := Int.natCast_nonneg (gridRows src height)
      nlinarith
    · intro _ _
      rw [gridTiles_length]

/-- Witness for C20: a `100 × 100` source with `30 × 30` tiles returns 16,
within `max_num_rects = (3 + 1) * (3 + 1)`. -/
theorem rect_split_total_witness :
    (((rect_from_xywh 0 0 100 100).left ≤ (rect_from_xywh 0 0 100 100).right ∧
      (rect_from_xywh 0 0 100 100).top ≤ (rect_from_xywh 0 0 100 100).bottom) ∧
     (0 : Int) < 30 ∧
     gridCols (rect_from_xywh 0 0 100 100) 30 < 5 ∧
     gridRows (rect_from_xywh 0 0 100 100) 30 < 5) ∧
    ∃ (n : Int) (rects : List Rect),
      rect_split 5 [] (rect_from_xywh 0 0 100 100) 30 30 = .ok (n, rects) ∧ 0 ≤ n ∧ n ≤ 16 :=
  ⟨by decide,
   (rect_split_total 5 [] (rect_from_xywh 0 0 100 100) 30 30 (by decide) (by decide)
     (by decide) (by decide) (by decide)).elim
     (fun n h => h.elim (fun rects h2 => ⟨n, rects, h2.1, h2.2.1, h2.2.2.1⟩))⟩

/-! ## Bounding rectangles -/

/-- The four coordinates after one loop body. -/
theorem bounding_rect_step_coords (st : v2i × v2i) (p : v2i) :
    (bounding_rect_step st p).1.x = (if p.x < st.1.x then p.x else st.1.x) ∧
    (bounding_rect_step st p).2.x = (if p.x > st.2.x then p.x else st.2.x) ∧
    (bounding_rect_step st p).1.y = (if p.y < st.1.y then p.y else st.1.y) ∧
    (bounding_rect_step st p).2.y = (if p.y > st.2.y then p.y else st.2.y) := by
  simp only [bounding_rect_step]
  refine ⟨?_, ?_, ?_, ?_⟩ <;> split_ifs <;> rfl

/-- One loop body extends the invariant from the points `0..m` to `0..m+1`. -/
theorem boundsUpTo_step (points : Nat → v2i) (m : Nat) (st : v2i × v2i)
    (h : BoundsUpTo points m st) :
    BoundsUpTo points (m + 1) (bounding_rect_step st (points (m + 1))) := by
  obtain ⟨hall, ⟨i1, hi1, e1⟩, ⟨i2, hi2, e2⟩, ⟨i3, hi3, e3⟩, ⟨i4, hi4, e4⟩⟩ := h
  obtain ⟨c1, c2, c3, c4⟩ := bounding_rect_step_coords st (points (m + 1))
  refine ⟨?_, ?_, ?_, ?_, ?_⟩
  · intro i hi
    rw [c1, c2, c3, c4]
    rcases Nat.lt_or_ge i (m + 1) with hlt | hge
    · obtain ⟨b1, b2, b3, b4⟩ := hall i (by omega)
      refine ⟨?_, ?_, ?_, ?_⟩ <;> split_ifs <;> omega
    · have hi' : i = m + 1 := by omega
      subst hi'
      refine ⟨?_, ?_, ?_, ?_⟩ <;> split_ifs <;> omega
  · rw [c1]
    split_ifs
    · exact ⟨m + 1, le_refl _, rfl⟩
    · exact ⟨i1, by omega, e1⟩
  · rw [c2]
    split_ifs
    · exact ⟨m + 1, le_refl _, rfl⟩
    · exact ⟨i2, by omega, e2⟩
  · rw [c3]
    split_ifs
    · exact ⟨m + 1, le_refl _, rfl⟩
    · exact ⟨i3, by omega, e3⟩
  · rw [c4]
    split_ifs
    · exact ⟨m + 1, le_refl _, rfl⟩
    · exact ⟨i4, by omega, e4⟩

/-- After the loop over the indices `1..m` the invariant holds for `0..m`. -/
theorem boundsUpTo_fold (points : Nat → v2i) (m : Nat) :
    BoundsUpTo points m ((List.range' 1 m).foldl
      (fun st i => bounding_rect_step st (points i)) (points 0, points 0)) := by
  induction m with
  | zero =>
    refine ⟨?_, ⟨0, le_refl _, rfl⟩, ⟨0, le_refl _, rfl⟩, ⟨0, le_refl _, rfl⟩,
      ⟨0, le_refl _, rfl⟩⟩
    intro i hi
    have hi0 : i = 0 := by omega
    subst hi0
    simp
  | succ m ih =>
    rw [List.range'_concat, List.foldl_append]
    simp only [List.foldl_cons, List.foldl_nil, one_mul]
    rw [show 1 + m = m + 1 by omega]
    exact boundsUpTo_step points m _ ih

/-- The scalar loop body computes the coordinates of the vector loop body. -/
theorem bounding_rect_step_scalar_eq (st : v2i × v2i) (p : v2i) :
    bounding_rect_step_scalar (st.1.x, st.2.x, st.1.y, st.2.y) p.x p.y =
      ((bounding_rect_step st p).1.x, (bounding_rect_step st p).2.x,
       (bounding_rect_step st p).1.y, (bounding_rect_step st p).2.y) := by
  obtain ⟨c1, c2, c3, c4⟩ := bounding_rect_step_coords st p
  rw [c1, c2, c3, c4]
  rfl

/-- The scalar loop and the vector loop stay in step over any index list. -/
theorem bounding_fold_scalar_eq (points : Nat → v2i) (l : List Nat) :
    ∀ st : v2i × v2i,
      l.foldl (fun s i => bounding_rect_step_scalar s (points i).x (points i).y)
          (st.1.x, st.2.x, st.1.y, st.2.y) =
        ((l.foldl (fun s i => bounding_rect_step s (points i)) st).1.x,
         (l.foldl (fun s i => bounding_rect_step s (points i)) st).2.x,
         (l.foldl (fun s i => bounding_rect_step s (points i)) st).1.y,
         (l.foldl (fun s i => bounding_rect_step s (points i)) st).2.y) := by
  induction l with
  | nil => intro st; rfl
  | cons i l ih =>
    intro st
    simp only [List.foldl_cons]
    rw [bounding_rect_step_scalar_eq st (points i)]
    exact ih (bounding_rect_step st (points i))

/-- C14: for `num_points > 0`, `bounding_rect_for_points` returns the tightest
box of the points `0..num_points-1`: every point lies within it
(`left ≤ x ≤ right`, `top ≤ y ≤ bottom`) and each edge is attained by a point,
so `left`/`right` are the least/greatest `x` and `top`/`bottom` the
least/greatest `y`; `bounding_rect_for_points_scalar` on the separate
coordinate arrays returns the same rectangle.  For `num_points ≤ 0` both fail
their assertion. -/
theorem bounding_rect_for_points_tight (points : Nat → v2i) (num_points : Int) :
    (0 < num_points →
      ∃ r : Rect,
        bounding_rect_for_points points num_points = .ok r ∧
        bounding_rect_for_points_scalar (fun i => (points i).x) (fun i => (points i).y)
          num_points = .ok r ∧
        (∀ i : Nat, (i : Int) < num_points →
          r.left ≤ (points i).x ∧ (points i).x ≤ r.right ∧
          r.top ≤ (points i).y ∧ (points i).y ≤ r.bottom) ∧
        (∃ i : Nat, (i : Int) < num_points ∧ (points i).x = r.left) ∧
        (∃ i : Nat, (i : Int) < num_points ∧ (points i).x = r.right) ∧
        (∃ i : Nat, (i : Int) < num_points ∧ (points i).y = r.top) ∧
        (∃ i : Nat, (i : Int) < num_points ∧ (points i).y = r.bottom)) ∧
    (num_points ≤ 0 →
      bounding_rect_for_points points num_points = .error .assertion ∧
      bounding_rect_for_points_scalar (fun i => (points i).x) (fun i => (points i).y)
        num_points = .error .assertion) := by
  constructor
  · intro hpos
    have hidx : ∀ i : Nat, i ≤ num_points.toNat - 1 ↔ (i : Int) < num_points := by
      intro i
      omega
    obtain ⟨hall, ⟨i1, hi1, e1⟩, ⟨i2, hi2, e2⟩, ⟨i3, hi3, e3⟩, ⟨i4, hi4, e4⟩⟩ :=
      boundsUpTo_fold points (num_points.toNat - 1)
    refine ⟨{ left := ((List.range' 1 (num_points.toNat - 1)).foldl
                (fun st i => bounding_rect_step st (points i)) (points 0, points 0)).1.x
              top := ((List.range' 1 (num_points.toNat - 1)).foldl
                (fun st i => bounding_rect_step st (points i)) (points 0, points 0)).1.y
              right := ((List.range' 1 (num_points.toNat - 1)).foldl
                (fun st i => bounding_rect_step st (points i)) (points 0, points 0)).2.x
              bottom := ((List.range' 1 (num_points.toNat - 1)).foldl
                (fun st i => bounding_rect_step st (points i)) (points 0, points 0)).2.y },
      ?_, ?_, ?_, ⟨i1, (hidx i1).mp hi1, e1⟩, ⟨i2, (hidx i2).mp hi2, e2⟩,
      ⟨i3, (hidx i3).mp hi3, e3⟩, ⟨i4, (hidx i4).mp hi4, e4⟩⟩
    · unfold bounding_rect_for_points
      rw [if_pos hpos]
    · unfold bounding_rect_for_points_scalar
      rw [if_pos hpos]
      have hs := bounding_fold_scalar_eq points (List.range' 1 (num_points.toNat - 1))
        (points 0, points 0)
      simp only at hs
      simp only [hs]
    · intro i hi
      exact hall i ((hidx i).mpr hi)
  · intro hle
    have hn : ¬ num_points > 0 := by omega
    constructor
    · unfold bounding_rect_for_points
      rw [if_neg hn]
    · unfold bounding_rect_for_points_scalar
      rw [if_neg hn]

/-- Witness for C14: the three points `(3,1)`, `(-2,5)`, `(4,0)` have the
bounding rectangle `{left -2, top 0, right 4, bottom 5}`, from both variants;
with `num_points = 0` both fail the assertion. -/
theorem bounding_rect_for_points_tight_witness :
    ((0 : Int) < 3 ∧ (0 : Int) ≤ 0) ∧
    (∃ r : Rect,
        bounding_rect_for_points examplePoints 3 = .ok r ∧
        bounding_rect_for_points_scalar (fun i => (examplePoints i).x)
          (fun i => (examplePoints i).y) 3 = .ok r ∧
        (∀ i : Nat, (i : Int) < 3 →
          r.left ≤ (examplePoints i).x ∧ (examplePoints i).x ≤ r.right ∧
          r.top ≤ (examplePoints i).y ∧ (examplePoints i).y ≤ r.bottom) ∧
        (∃ i : Nat, (i : Int) < 3 ∧ (examplePoints i).x = r.left) ∧
        (∃ i : Nat, (i : Int) < 3 ∧ (examplePoints i).x = r.right) ∧
        (∃ i : Nat, (i : Int) < 3 ∧ (examplePoints i).y = r.top) ∧
        (∃ i : Nat, (i : Int) < 3 ∧ (examplePoints i).y = r.bottom)) ∧
    bounding_rect_for_points examplePoints 3 = .ok ⟨-2, 0, 4, 5⟩ ∧
    (bounding_rect_for_points examplePoints 0 = .error .assertion ∧
      bounding_rect_for_points_scalar (fun i => (examplePoints i).x)
        (fun i => (examplePoints i).y) 0 = .error .assertion) :=
  ⟨by decide,
   (bounding_rect_for_points_tight examplePoints 3).1 (by decide),
   by simp [bounding_rect_for_points, bounding_rect_step, examplePoints, List.range'],
   (bounding_rect_for_points_tight examplePoints 0).2 (by decide)⟩

end Milton
